import Mathlib

/-!
Shallow embedding of the Syzygy tablebase probing layer of Cfish
(src/tbprobe.c).  The probing code is written against external
collaborators: the position accessors of position.h, the move generators of
movegen.h, and the compressed table layer of tbcore.c (which is included by
tbprobe.c but is not part of this tree).  Those collaborators are collected
in an abstract environment `TBEnv`; the control flow of tbprobe.c itself is
translated function by function.  The recursions of probe_ab, TB_probe_wdl
and TB_probe_dtz are made total with an explicit fuel parameter; `none`
means the fuel ran out and corresponds to no behaviour of the C code.
-/

namespace Cfish

/-- Outcome of probe_dtz_table (tbprobe.c lines 173-286) for one position and
one wdl value: the table may be missing or corrupt (`fail`, which sets
success to 0), it may be stored for the wrong side to move (`wrongSide`,
which sets success to -1, lines 235-237 and 263-266), or it yields a value
(`val`, leaving success unchanged).  The decompression itself lives in
tbcore.c, which is not part of this tree; only this three-way outcome feeds
the probing logic. -/
inductive DtzTableRes : Type where
  | fail : DtzTableRes
  | wrongSide : DtzTableRes
  | val : Int → DtzTableRes
deriving DecidableEq

/-- The external collaborators consumed by tbprobe.c, abstracted over a
position type `P` and a move type `M`:

* `checkers`      — whether `pos_checkers()` is non-empty;
* `capturesList`  — `generate_captures` followed by `add_underprom_caps`
                    (the list scanned by probe_ab and TB_probe_wdl when not
                    in check);
* `evasionsList`  — `generate_evasions`;
* `quietsList`    — `generate_quiets`;
* `nonEvasionsList` — `generate_non_evasions`;
* `legalList`     — `generate_legal` (only emptiness is consumed, in the
                    mate test of TB_root_probe);
* `isCapture`, `isLegal` — the move predicates of position.h;
* `isEp`          — `type_of_m(move) == ENPASSANT`;
* `isPawnMove`    — `type_of_p(moved_piece(move)) == PAWN`;
* `doMove`        — `do_move` (paired with the balancing `undo_move`);
* `wdlTable`      — probe_wdl_table (tbprobe.c lines 74-169): `none` when
                    the table is absent or corrupt (success set to 0),
                    `some v` for the stored value `v = res - 2`;
* `rule50`        — `pos_rule50_count()`;
* `hist`          — the stack of previous states walked by has_repeated,
                    as pairs `(key, pliesFromNull)`, current state first. -/
structure TBEnv (P M : Type) where
  checkers : P → Bool
  capturesList : P → List M
  evasionsList : P → List M
  quietsList : P → List M
  nonEvasionsList : P → List M
  legalList : P → List M
  isCapture : P → M → Bool
  isLegal : P → M → Bool
  isEp : M → Bool
  isPawnMove : P → M → Bool
  doMove : P → M → P
  wdlTable : P → Option Int
  rule50 : P → Nat
  hist : P → List (Nat × Nat)

variable {P M : Type}

/-- The move list generated at the top of probe_ab (lines 313-318) and of
TB_probe_wdl (lines 365-369): captures plus underpromotion captures when not
in check, evasions otherwise. -/
def capMoves (env : TBEnv P M) (pos : P) : List M :=
  if !(env.checkers pos) then env.capturesList pos else env.evasionsList pos

/-- The move list generated by TB_probe_dtz (lines 503-506 and 544-547) and
reused by its recursion: all non-evasions when not in check, evasions
otherwise. -/
def allMoves (env : TBEnv P M) (pos : P) : List M :=
  if !(env.checkers pos) then env.nonEvasionsList pos else env.evasionsList pos

/-- Outcome of the capture loop of probe_ab (lines 321-334): a failed table
probe below (`fail`), a beta cutoff returning `v` (`cut`), or the loop ran
to the end with final alpha (`alpha`). -/
inductive AbStep : Type where
  | fail : AbStep
  | cut : Int → AbStep
  | alpha : Int → AbStep
deriving DecidableEq

/-- The capture loop of probe_ab (tbprobe.c lines 321-334).  `recur` is the
recursive probe_ab call (at one smaller fuel); moves that are not legal
captures are skipped, each probed value is negated, and `v >= beta` is a
fail-soft cutoff returning `v` itself. -/
def abLoop (env : TBEnv P M) (recur : P → Int → Int → Option (Int × Bool))
    (pos : P) : List M → Int → Int → Option AbStep
  | [], a, _ => some (.alpha a)
  | m :: ms, a, b =>
    if !(env.isCapture pos m) || !(env.isLegal pos m) then
      abLoop env recur pos ms a b
    else
      match recur (env.doMove pos m) (-b) (-a) with
      | none => none
      | some (_, false) => some .fail
      | some (v0, true) =>
        let v := -v0
        if v > a then
          if v ≥ b then some (.cut v)
          else abLoop env recur pos ms v b
        else abLoop env recur pos ms a b

/-- probe_ab (tbprobe.c lines 305-339): negamax over legal captures with
window `[alpha, beta]`, terminal evaluation by probe_wdl_table.  The Bool is
the success flag (false corresponds to `*success == 0`). -/
def probe_ab (env : TBEnv P M) : Nat → P → Int → Int → Option (Int × Bool)
  | 0, _, _, _ => none
  | fuel + 1, pos, a, b =>
    match abLoop env (probe_ab env fuel) pos (capMoves env pos) a b with
    | none => none
    | some .fail => some (0, false)
    | some (.cut v) => some (v, true)
    | some (.alpha a1) =>
      match env.wdlTable pos with
      | none => some (0, false)
      | some v => some (if a1 ≥ v then a1 else v, true)

/-- Outcome of the capture-resolution loop of TB_probe_wdl (lines 378-396):
a failed probe below (`fail`), the short circuit on a capture of value +2
(`cut2`, lines 387-390), or the final `(best_cap, best_ep)` pair. -/
inductive CapStep : Type where
  | fail : CapStep
  | cut2 : CapStep
  | vals : Int → Int → CapStep
deriving DecidableEq

/-- The capture-resolution loop of TB_probe_wdl (tbprobe.c lines 378-396).
Each legal capture is probed with `probe_ab(pos, -2, -best_cap)`; a value of
exactly 2 short-circuits; non-en-passant captures update `best_cap`,
en-passant captures update `best_ep`. -/
def wdlCapLoop (env : TBEnv P M) (recur : P → Int → Int → Option (Int × Bool))
    (pos : P) : List M → Int → Int → Option CapStep
  | [], bc, be => some (.vals bc be)
  | m :: ms, bc, be =>
    if !(env.isCapture pos m) || !(env.isLegal pos m) then
      wdlCapLoop env recur pos ms bc be
    else
      match recur (env.doMove pos m) (-2) (-bc) with
      | none => none
      | some (_, false) => some .fail
      | some (v0, true) =>
        let v := -v0
        if v > bc then
          if v = 2 then some .cut2
          else if !(env.isEp m) then wdlCapLoop env recur pos ms v be
          else if v > be then wdlCapLoop env recur pos ms bc v
          else wdlCapLoop env recur pos ms bc be
        else wdlCapLoop env recur pos ms bc be

/-- The stalemate test of TB_probe_wdl (tbprobe.c lines 428-440): every
non-en-passant move of the generated list `ms` is illegal and, when not in
check, every generated quiet move is illegal as well. -/
def isStalemate (env : TBEnv P M) (pos : P) (ms : List M) : Bool :=
  ms.all (fun m => env.isEp m || !(env.isLegal pos m)) &&
  (env.checkers pos || (env.quietsList pos).all (fun m => !(env.isLegal pos m)))

/-- The tail of TB_probe_wdl after the en-passant fold (tbprobe.c lines
418-449), with `v` the stored table value, `bc` the current best capture
value and `be` the best en-passant capture value: return `best_cap` with
success `1 + (best_cap > 0)` when `best_cap >= v`; otherwise detect the
stalemate-with-ep case and return `best_ep` with success 2; otherwise the
table value stands with success 1. -/
def wdlResolve (env : TBEnv P M) (pos : P) (ms : List M) (v bc be : Int) :
    Int × Int :=
  if bc ≥ v then (bc, if bc > 0 then 2 else 1)
  else if be > -3 ∧ v = 0 ∧ isStalemate env pos ms then (be, 2)
  else (v, 1)

/-- The tail of TB_probe_wdl after the table read (tbprobe.c lines 407-449):
reconcile the en-passant value `be` with `best_cap` and the table value `v`
(lines 407-413), then fall through to `wdlResolve`. -/
def wdlAfterTable (env : TBEnv P M) (pos : P) (ms : List M) (v bc be : Int) :
    Int × Int :=
  if be > bc then
    if be > v then (be, 2)
    else wdlResolve env pos ms v be be
  else wdlResolve env pos ms v bc be

/-- TB_probe_wdl (tbprobe.c lines 356-450): the WDL probe with capture
resolution.  Returns `(value, success)`; success 0 is a failed probe,
success 2 means a capture (possibly en passant) is best. -/
def TB_probe_wdl (env : TBEnv P M) : Nat → P → Option (Int × Int)
  | 0, _ => none
  | fuel + 1, pos =>
    let ms := capMoves env pos
    match wdlCapLoop env (probe_ab env fuel) pos ms (-3) (-3) with
    | none => none
    | some .fail => some (0, 0)
    | some .cut2 => some (2, 2)
    | some (.vals bc be) =>
      match env.wdlTable pos with
      | none => some (0, 0)
      | some v => some (wdlAfterTable env pos ms v bc be)

/-- The array `wdl_to_dtz` of tbprobe.c lines 452-454. -/
def wdl_to_dtz : List Int := [-1, -101, 0, 101, 1]

/-- The access `wdl_to_dtz[wdl + 2]`. -/
def wdlToDtz (wdl : Int) : Int := wdl_to_dtz.getD (wdl + 2).toNat 0

/-- `INT32_MAX`, the initial `best` of the wrong-side DTZ recursion for a
winning position (tbprobe.c line 535). -/
def INT32_MAX : Int := 2147483647

/-- Outcome of the winning-pawn-move scan of TB_probe_dtz (lines 509-520):
a failed probe (`fail`), a pawn move whose child WDL matches (`found`,
carrying the success value left by the child probe), or the scan ran out
(`done`, carrying the current success value). -/
inductive PawnScan : Type where
  | fail : PawnScan
  | found : Int → PawnScan
  | done : Int → PawnScan
deriving DecidableEq

/-- The winning-pawn-move scan of TB_probe_dtz (tbprobe.c lines 509-520):
skip non-pawn moves, captures and illegal moves; probe the child WDL and
stop on a child value equal to `-wdl` (i.e. `v == wdl` after negation).
The success out-parameter is overwritten by every child probe. -/
def dtzPawnLoop (env : TBEnv P M) (wrec : P → Option (Int × Int)) (pos : P)
    (wdl : Int) : List M → Int → Option PawnScan
  | [], s => some (.done s)
  | m :: ms, s =>
    if !(env.isPawnMove pos m) || env.isCapture pos m || !(env.isLegal pos m) then
      dtzPawnLoop env wrec pos wdl ms s
    else
      match wrec (env.doMove pos m) with
      | none => none
      | some (w1, s1) =>
        if s1 = 0 then some .fail
        else if -w1 = wdl then some (.found s1)
        else dtzPawnLoop env wrec pos wdl ms s1

/-- Outcome of the wrong-side DTZ recursion loop (lines 551-570). -/
inductive DtzLoopRes : Type where
  | fail : DtzLoopRes
  | res : Int → Int → DtzLoopRes
deriving DecidableEq

/-- The wrong-side recursion loop of TB_probe_dtz (tbprobe.c lines 551-570):
skip captures, pawn moves and illegal moves; recurse on the rest; for a
winning position keep the least `v + 1` over children with `v > 0`, for a
losing one the least `v - 1`.  The success out-parameter is overwritten by
every recursive probe, so if no move is probed it keeps its entry value. -/
def dtzRecLoop (env : TBEnv P M) (drec : P → Option (Int × Int)) (pos : P)
    (wdlPos : Bool) : List M → Int → Int → Option DtzLoopRes
  | [], best, s => some (.res best s)
  | m :: ms, best, s =>
    if env.isCapture pos m || env.isPawnMove pos m || !(env.isLegal pos m) then
      dtzRecLoop env drec pos wdlPos ms best s
    else
      match drec (env.doMove pos m) with
      | none => none
      | some (d1, s1) =>
        let v := -d1
        if s1 = 0 then some .fail
        else if wdlPos then
          if v > 0 ∧ v + 1 < best then dtzRecLoop env drec pos wdlPos ms (v + 1) s1
          else dtzRecLoop env drec pos wdlPos ms best s1
        else
          if v - 1 < best then dtzRecLoop env drec pos wdlPos ms (v - 1) s1
          else dtzRecLoop env drec pos wdlPos ms best s1

/-- TB_probe_dtz (tbprobe.c lines 484-572).  `dtzT` is probe_dtz_table
(whose payload lives in tbcore.c), passed separately so that independence
of the result from the DTZ tables is expressible.  The function first
probes WDL; a draw yields 0; success 2 yields `wdl_to_dtz[wdl + 2]`; a
winning position is scanned for a winning pawn move; then the DTZ table is
read, and a wrong-side answer triggers the recursion over non-capture
non-pawn moves. -/
def TB_probe_dtz (env : TBEnv P M) (dtzT : P → Int → DtzTableRes) :
    Nat → P → Option (Int × Int)
  | 0, _ => none
  | fuel + 1, pos =>
    match TB_probe_wdl env fuel pos with
    | none => none
    | some (wdl, s) =>
      if s = 0 then some (0, 0)
      else if wdl = 0 then some (0, s)
      else if s = 2 then some (wdlToDtz wdl, 2)
      else
        let ms := allMoves env pos
        match (if wdl > 0 then dtzPawnLoop env (TB_probe_wdl env fuel) pos wdl ms s
               else some (.done s)) with
        | none => none
        | some .fail => some (0, 0)
        | some (.found s1) => some (wdlToDtz wdl, s1)
        | some (.done s1) =>
          match dtzT pos wdl with
          | .fail => some (0, 0)
          | .val d => some (wdlToDtz wdl + (if wdl > 0 then d else -d), s1)
          | .wrongSide =>
            let best0 := if wdl > 0 then INT32_MAX else wdlToDtz wdl
            match dtzRecLoop env (TB_probe_dtz env dtzT fuel) pos
                (decide (wdl > 0)) ms best0 (-1) with
            | none => none
            | some .fail => some (0, 0)
            | some (.res best s2) => some (best, s2)

/-- The inner scan of has_repeated (tbprobe.c lines 583-589) for the frame
at the head of `hist`: compare its key with the keys 4, 6, ...,
`2 * (e / 2)` plies further back. -/
def hasRepeatedScan (key : Nat) (hist : List (Nat × Nat)) (e : Nat) : Bool :=
  ((List.range ((e - 4) / 2 + 1)).map (fun j => 4 + 2 * j)).any
    (fun off => decide ((hist.get? off).map Prod.fst = some key))

/-- has_repeated (tbprobe.c lines 576-592): walk the previous-state chain
(current frame first); for each frame whose pliesFromNull is at least 4,
scan for an equal key an even number (at least 4) of plies further back;
stop as soon as a frame has pliesFromNull below 4. -/
def has_repeated : List (Nat × Nat) → Bool
  | [] => false
  | (key, e) :: rest =>
    if e < 4 then false
    else if hasRepeatedScan key ((key, e) :: rest) e then true
    else has_repeated rest

/-- The constants of wdl_to_Value (tbprobe.c lines 594-600).  Modelled from
the spec: their values come from the engine's types.h, which is not part of
this tree; only the shape of the array matters to the probing logic, no
claim depends on the numeric values. -/
def VALUE_MATE : Int := 32000

/-- MAX_PLY. Modelled from the spec: value from the engine's types.h, which
is not part of this tree. -/
def MAX_PLY : Int := 128

/-- VALUE_DRAW. Modelled from the spec: value from the engine's types.h,
which is not part of this tree. -/
def VALUE_DRAW : Int := 0

/-- PawnValueEg, the scaling factor of the near-50-move scores.  Modelled
from the spec: value from the engine's types.h, which is not part of this
tree. -/
def PawnValueEg : Int := 240

/-- The array wdl_to_Value (tbprobe.c lines 594-600). -/
def wdl_to_Value : List Int :=
  [-VALUE_MATE + MAX_PLY + 1, VALUE_DRAW - 2, VALUE_DRAW, VALUE_DRAW + 2,
   VALUE_MATE - MAX_PLY - 1]

/-- The probe of one root move inside TB_root_probe (tbprobe.c lines
626-635), on the child position: with a non-zero 50-move counter probe DTZ
and widen by one ply, otherwise probe WDL and map through wdl_to_dtz.
Returns `(value, success)`. -/
def rootMoveV (env : TBEnv P M) (dtzT : P → Int → DtzTableRes) (fuel : Nat)
    (child : P) : Option (Int × Int) :=
  if env.rule50 child ≠ 0 then
    match TB_probe_dtz env dtzT fuel child with
    | none => none
    | some (d, s) =>
      let v := -d
      some ((if v > 0 then v + 1 else if v < 0 then v - 1 else v), s)
  else
    match TB_probe_wdl env fuel child with
    | none => none
    | some (w, s) => some (wdlToDtz (-w), s)

/-- The per-move loop of TB_root_probe (tbprobe.c lines 618-639): for each
root move, either the mate fixup applies (child in check, root dtz positive,
no legal reply: value 1, no probe) or the child is probed; a failed probe
exits immediately, leaving the current and the remaining entries untouched
(the Bool result is false).  Values of successfully probed moves are
written back into the list. -/
def rootLoop (env : TBEnv P M) (dtzT : P → Int → DtzTableRes) (fuel : Nat)
    (pos : P) (dtz : Int) : List (M × Int) → Option (List (M × Int) × Bool)
  | [] => some ([], true)
  | (m, ov) :: rest =>
    let child := env.doMove pos m
    if env.checkers child ∧ dtz > 0 ∧ (env.legalList child).isEmpty then
      match rootLoop env dtzT fuel pos dtz rest with
      | none => none
      | some (l, ok) => some ((m, 1) :: l, ok)
    else
      match rootMoveV env dtzT fuel child with
      | none => none
      | some (v, s) =>
        if s = 0 then some ((m, ov) :: rest, false)
        else
          match rootLoop env dtzT fuel pos dtz rest with
          | none => none
          | some (l, ok) => some ((m, v) :: l, ok)

/-- The in-place compaction `rm[j++].move = rm[i].move` of the filtering
loops: the kept moves overwrite the move fields of the leading entries,
values and trailing entries are left as they are. -/
def overlayMoves : List M → List (M × Int) → List (M × Int)
  | [], rest => rest
  | _ :: _, [] => []
  | mv :: ms, (_, v) :: rest => (mv, v) :: overlayMoves ms rest

/-- The `best` fold of the winning branch of TB_root_probe (tbprobe.c lines
666-671): the least positive value, starting from 0xffff. -/
def bestWin (l : List (M × Int)) : Int :=
  l.foldl (fun b e => if e.2 > 0 ∧ e.2 < b then e.2 else b) 0xffff

/-- The `best` fold of the losing branch of TB_root_probe (tbprobe.c lines
690-693): the greatest value, starting from 0. -/
def bestLoss (l : List (M × Int)) : Int :=
  l.foldl (fun b e => if b < e.2 then e.2 else b) 0

/-- Result of TB_root_probe / TB_root_probe_wdl: the return code, the move
array after the in-place updates, the value of `*num_moves`, and the score
(`none` when the out-parameter was never written). -/
structure RootRes (M : Type) where
  ret : Int
  rm : List (M × Int)
  num : Nat
  score : Option Int
deriving DecidableEq

/-- TB_root_probe (tbprobe.c lines 608-712): probe DTZ at the root, probe
every root move, then filter the list according to the sign of the root
dtz.  A failed probe returns 0 with the move list unfiltered. -/
def TB_root_probe (env : TBEnv P M) (dtzT : P → Int → DtzTableRes)
    (fuel : Nat) (pos : P) (rm : List (M × Int)) : Option (RootRes M) :=
  match TB_probe_dtz env dtzT fuel pos with
  | none => none
  | some (dtz, succ) =>
    if succ = 0 then some ⟨0, rm, rm.length, none⟩
    else
      match rootLoop env dtzT fuel pos dtz rm with
      | none => none
      | some (rmv, ok) =>
        if !ok then some ⟨0, rmv, rm.length, none⟩
        else
          let cnt50 : Int := env.rule50 pos
          let wdl : Int :=
            if dtz > 0 then (if dtz + cnt50 ≤ 100 then 2 else 1)
            else if dtz < 0 then (if -dtz + cnt50 ≤ 100 then -2 else -1)
            else 0
          let score : Int :=
            if wdl = 1 ∧ dtz ≤ 100 then
              Int.tdiv ((200 - dtz - cnt50) * PawnValueEg) 200
            else if wdl = -1 ∧ dtz ≥ -100 then
              -(Int.tdiv ((200 + dtz - cnt50) * PawnValueEg) 200)
            else wdl_to_Value.getD (wdl + 2).toNat 0
          if dtz > 0 then
            let best := bestWin rmv
            let maxAllowed :=
              if !(has_repeated (env.hist pos)) ∧ best + cnt50 ≤ 99 then
                99 - cnt50
              else best
            let kept := (rmv.filter (fun e => e.2 > 0 ∧ e.2 ≤ maxAllowed)).map Prod.fst
            some ⟨1, overlayMoves kept rmv, kept.length, some score⟩
          else if dtz < 0 then
            let best := bestLoss rmv
            if -best * 2 + cnt50 < 100 then some ⟨1, rmv, rm.length, some score⟩
            else
              let kept := (rmv.filter (fun e => e.2 = best)).map Prod.fst
              some ⟨1, overlayMoves kept rmv, kept.length, some score⟩
          else
            let kept := (rmv.filter (fun e => e.2 = 0)).map Prod.fst
            some ⟨1, overlayMoves kept rmv, kept.length, some score⟩

/-- The per-move loop of TB_root_probe_wdl (tbprobe.c lines 732-740): probe
each child's WDL, negate, and write the value back; a failed probe exits
immediately leaving the current and remaining entries untouched. -/
def wdlRootLoop (env : TBEnv P M) (fuel : Nat) (pos : P) :
    List (M × Int) → Option (List (M × Int) × Bool)
  | [] => some ([], true)
  | (m, ov) :: rest =>
    match TB_probe_wdl env fuel (env.doMove pos m) with
    | none => none
    | some (w, s) =>
      if s = 0 then some ((m, ov) :: rest, false)
      else
        match wdlRootLoop env fuel pos rest with
        | none => none
        | some (l, ok) => some ((m, -w) :: l, ok)

/-- TB_root_probe_wdl (tbprobe.c lines 719-749): the WDL-only fallback root
filter; keeps exactly the moves attaining the best negated child WDL. -/
def TB_root_probe_wdl (env : TBEnv P M) (fuel : Nat) (pos : P)
    (rm : List (M × Int)) : Option (RootRes M) :=
  match TB_probe_wdl env fuel pos with
  | none => none
  | some (wdl, succ) =>
    if succ = 0 then some ⟨0, rm, rm.length, none⟩
    else
      let score : Int := wdl_to_Value.getD (wdl + 2).toNat 0
      match wdlRootLoop env fuel pos rm with
      | none => none
      | some (rmv, ok) =>
        if !ok then some ⟨0, rmv, rm.length, some score⟩
        else
          let best := rmv.foldl (fun b e => if e.2 > b then e.2 else b) (-2)
          let kept := (rmv.filter (fun e => e.2 = best)).map Prod.fst
          some ⟨1, overlayMoves kept rmv, kept.length, some score⟩

/-- The perspective and mirror selection of probe_wdl_table and
probe_dtz_table (tbprobe.c lines 117-131 and 217-231), as a function of the
entry's symmetric flag, whether the position's material key equals the
entry's key, and the side to move.  Returns `(bside, mirror, cmirror)`. -/
def tableSides (symmetric keyMatches stmWhite : Bool) : Nat × Nat × Nat :=
  if !symmetric then
    if !keyMatches then ((if stmWhite then 1 else 0), 0x38, 8)
    else ((if stmWhite then 0 else 1), 0, 0)
  else (0, (if stmWhite then 0 else 0x38), (if stmWhite then 0 else 8))

/-- The environment with the probe_wdl_table answer at position `q` replaced
by `w`; every other collaborator is untouched.  Used to express that a
result was produced without reading the WDL table of a given position. -/
def updWdl [DecidableEq P] (env : TBEnv P M) (q : P) (w : Option Int) :
    TBEnv P M :=
  { env with wdlTable := fun p => if p = q then w else env.wdlTable p }

/-- Splitting the capture-resolution loop of TB_probe_wdl at a list
concatenation: the loop runs the first part, and unless it exited early it
continues into the second part from the state reached. -/
theorem wdlCapLoop_append (env : TBEnv P M)
    (r : P → Int → Int → Option (Int × Bool)) (pos : P) (l1 l2 : List M) :
    ∀ bc be, wdlCapLoop env r pos (l1 ++ l2) bc be =
      match wdlCapLoop env r pos l1 bc be with
      | none => none
      | some .fail => some .fail
      | some .cut2 => some .cut2
      | some (.vals bc1 be1) => wdlCapLoop env r pos l2 bc1 be1 := by
  induction l1 with
  | nil => intro bc be; rfl
  | cons m ms ih =>
    intro bc be
    simp only [List.cons_append, wdlCapLoop]
    split
    · exact ih bc be
    · cases hr : r (env.doMove pos m) (-2) (-bc) with
      | none => rfl
      | some p =>
        rcases p with ⟨v0, ok⟩
        cases ok with
        | false => rfl
        | true =>
          simp only []
          split
          · split
            · rfl
            · split
              · exact ih (-v0) be
              · split
                · exact ih bc (-v0)
                · exact ih bc be
          · exact ih bc be

/-- If every move of the list is either an en-passant move or illegal, the
capture-resolution loop never updates `best_cap`: a normal exit carries the
`best_cap` it started from. -/
theorem wdlCapLoop_noep (env : TBEnv P M)
    (r : P → Int → Int → Option (Int × Bool)) (pos : P) (ms : List M)
    (bc : Int)
    (h : ∀ m ∈ ms, env.isEp m = true ∨ env.isLegal pos m = false) :
    ∀ be bc1 be1, wdlCapLoop env r pos ms bc be = some (.vals bc1 be1) →
      bc1 = bc := by
  induction ms with
  | nil =>
    intro be bc1 be1 heq
    simp only [wdlCapLoop] at heq
    cases heq
    rfl
  | cons m ms ih =>
    intro be bc1 be1 heq
    have hm := h m (List.mem_cons_self m ms)
    have hrest : ∀ m' ∈ ms, env.isEp m' = true ∨ env.isLegal pos m' = false :=
      fun m' hm' => h m' (List.mem_cons_of_mem m hm')
    simp only [wdlCapLoop] at heq
    split at heq
    · exact ih hrest be bc1 be1 heq
    · rename_i hskip
      have hleg : env.isLegal pos m = true := by
        rcases Bool.or_eq_false_iff.mp (by
          simpa using hskip : (!(env.isCapture pos m) || !(env.isLegal pos m)) = false)
          with ⟨_, h2⟩
        simpa using h2
      have hep : env.isEp m = true := by
        rcases hm with h1 | h2
        · exact h1
        · rw [hleg] at h2; cases h2
      cases hr : r (env.doMove pos m) (-2) (-bc) with
      | none => rw [hr] at heq; cases heq
      | some p =>
        rcases p with ⟨v0, ok⟩
        rw [hr] at heq
        cases ok with
        | false => cases heq
        | true =>
          simp only [hep, Bool.not_true, Bool.false_eq_true, if_false] at heq
          split at heq
          · split at heq
            · cases heq
            · split at heq
              · exact ih hrest (-v0) bc1 be1 heq
              · exact ih hrest be bc1 be1 heq
          · exact ih hrest be bc1 be1 heq

/-- C2: TB_probe_dtz first probes WDL; if the WDL value is 0 it returns 0;
otherwise, if the WDL probe set success to 2 (a capture is best), it
returns the constant `wdl_to_dtz[wdl + 2]` where
`wdl_to_dtz = [-1, -101, 0, 101, 1]` — in both cases for every DTZ table
`g`, i.e. without reading any DTZ table (tbprobe.c lines 484-494). -/
theorem claim_C2 (env : TBEnv P M) (f : Nat) (pos : P) (w s : Int)
    (h : TB_probe_wdl env f pos = some (w, s)) (hs : s ≠ 0) :
    (w = 0 → ∀ g, TB_probe_dtz env g (f + 1) pos = some (0, s)) ∧
    (w ≠ 0 → s = 2 → ∀ g, TB_probe_dtz env g (f + 1) pos =
      some (wdlToDtz w, 2)) ∧
    wdl_to_dtz = [-1, -101, 0, 101, 1] ∧
    wdlToDtz (-2) = -1 ∧ wdlToDtz (-1) = -101 ∧
    wdlToDtz 1 = 101 ∧ wdlToDtz 2 = 1 := by
  refine ⟨?_, ?_, rfl, rfl, rfl, rfl, rfl⟩
  · intro hw g
    simp [TB_probe_dtz, h, hs, hw]
  · intro hw h2 g
    simp [TB_probe_dtz, h, hs, hw, h2]

/-- C3: in TB_probe_wdl, with `bc`, `be` the best non-ep and ep capture
values delivered by the capture loop and `v` the stored table value, if
`be > bc` and `be > v` then the probe returns `be` with success 2; if
`be > bc` but `be ≤ v` then `be` is folded into `best_cap`: the probe
continues exactly as `wdlResolve` with `best_cap = be` (tbprobe.c lines
407-413). -/
theorem claim_C3 (env : TBEnv P M) (f : Nat) (pos : P) (bc be v : Int)
    (hloop : wdlCapLoop env (probe_ab env f) pos (capMoves env pos) (-3) (-3)
      = some (.vals bc be))
    (htab : env.wdlTable pos = some v) (hbe : be > bc) :
    (be > v → TB_probe_wdl env (f + 1) pos = some (be, 2)) ∧
    (be ≤ v →
      TB_probe_wdl env (f + 1) pos =
        some (wdlResolve env pos (capMoves env pos) v be be) ∧
      wdlAfterTable env pos (capMoves env pos) v bc be =
        wdlResolve env pos (capMoves env pos) v be be) := by
  constructor
  · intro hbv
    simp [TB_probe_wdl, hloop, htab, wdlAfterTable, hbe, hbv]
  · intro hbv
    have hnbv : ¬ be > v := not_lt.mpr hbv
    constructor
    · simp [TB_probe_wdl, hloop, htab, wdlAfterTable, hbe, hnbv]
    · simp [wdlAfterTable, hbe, hnbv]

/-- C4 (amended): in a position whose stored table value is 0, where every
non-en-passant generated move is illegal (and, when not in check, every
quiet move is illegal), and which has at least one legal en-passant capture
(`be > -3`), TB_probe_wdl returns `be`; success is 2 when `be ≠ 0` (for
`be > 0` through the ep-best exit at lines 407-411, for `be < 0` through
the stalemate exit at lines 441-444), but when `be = 0` the probe exits at
lines 418-423 with the same value 0 and success 1. -/
theorem claim_C4 (env : TBEnv P M) (f : Nat) (pos : P) (bc be : Int)
    (hloop : wdlCapLoop env (probe_ab env f) pos (capMoves env pos) (-3) (-3)
      = some (.vals bc be))
    (hnoep : ∀ m ∈ capMoves env pos,
      env.isEp m = true ∨ env.isLegal pos m = false)
    (hquiet : env.checkers pos = true ∨
      ∀ m ∈ env.quietsList pos, env.isLegal pos m = false)
    (htab : env.wdlTable pos = some 0) (hbe : be > -3) :
    bc = -3 ∧
    TB_probe_wdl env (f + 1) pos = some (be, if be = 0 then 1 else 2) := by
  have hbc : bc = -3 :=
    wdlCapLoop_noep env (probe_ab env f) pos (capMoves env pos) (-3) hnoep
      (-3) bc be hloop
  subst hbc
  refine ⟨rfl, ?_⟩
  have hstale : isStalemate env pos (capMoves env pos) = true := by
    simp only [isStalemate, Bool.and_eq_true, List.all_eq_true]
    constructor
    · intro m hm
      rcases hnoep m hm with h1 | h1 <;> simp [h1]
    · rcases hquiet with h1 | h1
      · simp [h1]
      · rcases hc : env.checkers pos with _ | _
        · simp only [Bool.false_or, List.all_eq_true]
          intro m hm
          simp [h1 m hm]
        · simp
  have hbegt : be > -3 := hbe
  rcases lt_trichotomy be 0 with hlt | heq | hgt
  · have h1 : ¬ be > 0 := by omega
    have h2 : ¬ be ≥ 0 := by omega
    have hne : ¬ be = 0 := by omega
    simp [TB_probe_wdl, hloop, htab, wdlAfterTable, wdlResolve, hbegt, hstale,
      h1, h2, hne, show ¬ be > (0:Int) from h1]
  · subst heq
    simp [TB_probe_wdl, hloop, htab, wdlAfterTable, wdlResolve, hbegt]
  · have h1 : be > 0 := hgt
    have hne : ¬ be = 0 := by omega
    simp [TB_probe_wdl, hloop, htab, wdlAfterTable, wdlResolve, hbegt, h1, hne]

/-- C9: if the capture-resolution loop of TB_probe_wdl reaches a legal
capture whose negamax value is exactly 2 (the loop over the earlier moves
having ended normally with `best_cap < 2`), the probe returns 2 with
success 2 — and it does so for every value of the WDL table at the probed
position, i.e. without reading that table (tbprobe.c lines 378-396). -/
theorem claim_C9 [DecidableEq P] (env : TBEnv P M) (f : Nat) (pos : P)
    (m : M) (ms1 ms2 : List M) (bc be : Int)
    (hsplit : capMoves env pos = ms1 ++ m :: ms2)
    (hpre : ∀ w, wdlCapLoop (updWdl env pos w) (probe_ab (updWdl env pos w) f)
      pos ms1 (-3) (-3) = some (.vals bc be))
    (hcap : env.isCapture pos m = true) (hleg : env.isLegal pos m = true)
    (hab : ∀ w, probe_ab (updWdl env pos w) f (env.doMove pos m) (-2) (-bc)
      = some (-2, true))
    (hbc : bc < 2) :
    ∀ w, TB_probe_wdl (updWdl env pos w) (f + 1) pos = some (2, 2) := by
  intro w
  have hms : capMoves (updWdl env pos w) pos = ms1 ++ m :: ms2 := hsplit
  have hloop : wdlCapLoop (updWdl env pos w) (probe_ab (updWdl env pos w) f)
      pos (capMoves (updWdl env pos w) pos) (-3) (-3) = some .cut2 := by
    rw [hms, wdlCapLoop_append, hpre w]
    have hcap1 : (updWdl env pos w).isCapture pos m = true := hcap
    have hleg1 : (updWdl env pos w).isLegal pos m = true := hleg
    have hab1 : probe_ab (updWdl env pos w) f
        ((updWdl env pos w).doMove pos m) (-2) (-bc) = some (-2, true) :=
      hab w
    simp only [wdlCapLoop, hcap1, hleg1, Bool.not_true, Bool.or_self,
      Bool.false_eq_true, if_false, hab1]
    have h2 : bc < -(-2 : Int) := by omega
    simp [h2]
    intro h3
    exact absurd h3 (by omega)
  simp [TB_probe_wdl, hloop]

/-- A two-position test environment: at position 0 a single legal capture
leads to position 1, whose stored WDL value is -2, so the capture wins
outright (negamax value 2). -/
def cenvA : TBEnv (Fin 2) (Fin 1) where
  checkers := fun _ => false
  capturesList := fun p => if p = 0 then [0] else []
  evasionsList := fun _ => []
  quietsList := fun _ => []
  nonEvasionsList := fun _ => []
  legalList := fun _ => []
  isCapture := fun _ _ => true
  isLegal := fun _ _ => true
  isEp := fun _ => false
  isPawnMove := fun _ _ => false
  doMove := fun _ _ => 1
  wdlTable := fun p => if p = 0 then some 0 else some (-2)
  rule50 := fun _ => 0
  hist := fun _ => []

/-- A two-position test environment: at position 0 a single legal
en-passant capture leads to position 1 of stored value -1 (so the capture
is worth 1 for the mover), while position 0's own table value is 0. -/
def cenvE : TBEnv (Fin 2) (Fin 1) where
  checkers := fun _ => false
  capturesList := fun p => if p = 0 then [0] else []
  evasionsList := fun _ => []
  quietsList := fun _ => []
  nonEvasionsList := fun _ => []
  legalList := fun _ => []
  isCapture := fun _ _ => true
  isLegal := fun _ _ => true
  isEp := fun _ => true
  isPawnMove := fun _ _ => false
  doMove := fun _ _ => 1
  wdlTable := fun p => if p = 0 then some 0 else some (-1)
  rule50 := fun _ => 0
  hist := fun _ => []

/-- Like `cenvE` but the en-passant capture is worth -1 (child value 1):
position 0 is a stalemate-with-ep position whose only move is a losing ep
capture. -/
def cenvD : TBEnv (Fin 2) (Fin 1) where
  checkers := fun _ => false
  capturesList := fun p => if p = 0 then [0] else []
  evasionsList := fun _ => []
  quietsList := fun _ => []
  nonEvasionsList := fun _ => []
  legalList := fun _ => []
  isCapture := fun _ _ => true
  isLegal := fun _ _ => true
  isEp := fun _ => true
  isPawnMove := fun _ _ => false
  doMove := fun _ _ => 1
  wdlTable := fun p => if p = 0 then some 0 else some 1
  rule50 := fun _ => 0
  hist := fun _ => []

/-- Like `cenvE` but the en-passant capture is worth 0 (child value 0):
position 0 is a stalemate-with-ep position whose only move is a drawing ep
capture. -/
def cenvC : TBEnv (Fin 2) (Fin 1) where
  checkers := fun _ => false
  capturesList := fun p => if p = 0 then [0] else []
  evasionsList := fun _ => []
  quietsList := fun _ => []
  nonEvasionsList := fun _ => []
  legalList := fun _ => []
  isCapture := fun _ _ => true
  isLegal := fun _ _ => true
  isEp := fun _ => true
  isPawnMove := fun _ _ => false
  doMove := fun _ _ => 1
  wdlTable := fun p => if p = 0 then some 0 else some 0
  rule50 := fun _ => 0
  hist := fun _ => []

/-- C2 witness: on `cenvA`, the WDL probe reports a winning capture
(value 2, success 2), and TB_probe_dtz returns `wdl_to_dtz[2 + 2] = 1`
whatever the DTZ table says. -/
theorem claim_C2_witness :
    TB_probe_wdl cenvA 2 0 = some (2, 2) ∧
    TB_probe_dtz cenvA (fun _ _ => DtzTableRes.fail) 3 0 =
      some (wdlToDtz 2, 2) :=
  ⟨by decide,
   (claim_C2 cenvA 2 0 2 2 (by decide) (by decide)).2.1 (by decide) rfl
     (fun _ _ => DtzTableRes.fail)⟩

/-- C3 witness: on `cenvE` the capture loop yields `best_cap = -3`,
`best_ep = 1`, the table value is 0, and since `best_ep > max(v, best_cap)`
the probe returns the ep value 1 with success 2. -/
theorem claim_C3_witness :
    TB_probe_wdl cenvE 2 0 = some (1, 2) :=
  (claim_C3 cenvE 1 0 (-3) 1 0 (by decide) rfl (by decide)).1 (by decide)

/-- C4 counterexample: on `cenvC`, position 0 has exactly one legal move,
an en-passant capture of value 0; its table value is 0 and every
non-en-passant move is illegal, yet TB_probe_wdl returns success 1, not
the success 2 the claim asserts (the value 0 coincides with best_ep). -/
theorem claim_C4_counterexample :
    (∀ m ∈ capMoves cenvC 0, cenvC.isEp m = true ∨ cenvC.isLegal 0 m = false) ∧
    (∀ m ∈ cenvC.quietsList 0, cenvC.isLegal 0 m = false) ∧
    cenvC.wdlTable 0 = some 0 ∧
    cenvC.isCapture 0 0 = true ∧ cenvC.isLegal 0 0 = true ∧
    cenvC.isEp 0 = true ∧
    wdlCapLoop cenvC (probe_ab cenvC 1) 0 (capMoves cenvC 0) (-3) (-3) =
      some (.vals (-3) 0) ∧
    TB_probe_wdl cenvC 2 0 = some (0, 1) ∧
    TB_probe_wdl cenvC 2 0 ≠ some (0, 2) := by
  decide

/-- C4 witness (amended claim): on `cenvD`, the only move is a legal ep
capture of value -1, the table value is 0, every non-ep move is illegal,
and the probe returns `best_ep = -1` with success 2 through the stalemate
branch. -/
theorem claim_C4_witness :
    TB_probe_wdl cenvD 2 0 = some (-1, if (-1 : Int) = 0 then 1 else 2) :=
  (claim_C4 cenvD 1 0 (-3) (-1) (by decide) (by decide)
    (Or.inr (by decide)) rfl (by decide)).2

/-- C9 witness: on `cenvA`, the single legal capture has negamax value 2,
and the probe returns (2, 2) for every value of the WDL table at the
probed position (here replaced by `some 0` and by `none`). -/
theorem claim_C9_witness :
    TB_probe_wdl (updWdl cenvA 0 (some 0)) 2 0 = some (2, 2) ∧
    TB_probe_wdl (updWdl cenvA 0 none) 2 0 = some (2, 2) :=
  ⟨claim_C9 cenvA 1 0 0 [] [] (-3) (-3) rfl (fun _ => rfl) rfl rfl
     (fun _ => by unfold probe_ab capMoves updWdl cenvA abLoop; simp)
     (by decide) (some 0),
   claim_C9 cenvA 1 0 0 [] [] (-3) (-3) rfl (fun _ => rfl) rfl rfl
     (fun _ => by unfold probe_ab capMoves updWdl cenvA abLoop; simp)
     (by decide) none⟩

/-- The per-move loop of TB_root_probe only writes value fields: the move
fields and the length of the list are untouched, also on the early exit of
a failed probe. -/
theorem rootLoop_moves (env : TBEnv P M) (dtzT : P → Int → DtzTableRes)
    (fuel : Nat) (pos : P) (dtz : Int) :
    ∀ (l l2 : List (M × Int)) (ok : Bool),
      rootLoop env dtzT fuel pos dtz l = some (l2, ok) →
      l2.map Prod.fst = l.map Prod.fst ∧ l2.length = l.length := by
  intro l
  induction l with
  | nil =>
    intro l2 ok h
    simp only [rootLoop, Option.some.injEq, Prod.mk.injEq] at h
    obtain ⟨h1, _⟩ := h
    subst h1
    exact ⟨rfl, rfl⟩
  | cons e rest ih =>
    intro l2 ok h
    rcases e with ⟨m, ov⟩
    simp only [rootLoop] at h
    split at h
    · cases hr : rootLoop env dtzT fuel pos dtz rest with
      | none => rw [hr] at h; cases h
      | some p =>
        rcases p with ⟨l1, ok1⟩
        rw [hr] at h
        simp only [Option.some.injEq, Prod.mk.injEq] at h
        obtain ⟨h1, _⟩ := h
        subst h1
        have h2 := ih l1 ok1 hr
        simp [h2.1, h2.2]
    · cases hv : rootMoveV env dtzT fuel (env.doMove pos m) with
      | none => rw [hv] at h; cases h
      | some p =>
        rcases p with ⟨v, s⟩
        rw [hv] at h
        simp only [] at h
        split at h
        · simp only [Option.some.injEq, Prod.mk.injEq] at h
          obtain ⟨h1, _⟩ := h
          subst h1
          exact ⟨rfl, rfl⟩
        · cases hr : rootLoop env dtzT fuel pos dtz rest with
          | none => rw [hr] at h; cases h
          | some p2 =>
            rcases p2 with ⟨l1, ok1⟩
            rw [hr] at h
            simp only [Option.some.injEq, Prod.mk.injEq] at h
            obtain ⟨h1, _⟩ := h
            subst h1
            have h2 := ih l1 ok1 hr
            simp [h2.1, h2.2]

/-- The compaction `rm[j++].move = rm[i].move` restricted to the first
`kept.length` entries recovers exactly the kept moves. -/
theorem overlay_take_map (kept : List M) :
    ∀ rmv : List (M × Int), kept.length ≤ rmv.length →
      ((overlayMoves kept rmv).take kept.length).map Prod.fst = kept := by
  induction kept with
  | nil => intro rmv _; simp [overlayMoves]
  | cons mv ms ih =>
    intro rmv hlen
    cases rmv with
    | nil => simp at hlen
    | cons e rest =>
      rcases e with ⟨m0, v0⟩
      simp only [overlayMoves, List.length_cons, List.take_succ_cons,
        List.map_cons]
      rw [ih rest (by simpa using hlen)]

/-- Filtering a value-annotated copy of a move list commutes with filtering
the original list on the annotation. -/
theorem filter_map_fst (rm : List (M × Int)) (vf : M → Int) (p : Int → Bool) :
    ((rm.map (fun e => (e.1, vf e.1))).filter (fun e => p e.2)) =
      (rm.filter (fun e => p (vf e.1))).map (fun e => (e.1, vf e.1)) := by
  induction rm with
  | nil => rfl
  | cons e rest ih =>
    simp only [List.map_cons, List.filter_cons]
    cases hp : p (vf e.1) <;> simp [hp, ih]

/-- Splitting the per-move loop of TB_root_probe at a list concatenation:
if the loop ran through the first part without a failure, it continues
into the second part, and the updated first part is prepended to whatever
the second part produces. -/
theorem rootLoop_append (env : TBEnv P M) (dtzT : P → Int → DtzTableRes)
    (fuel : Nat) (pos : P) (dtz : Int) (l2 : List (M × Int)) :
    ∀ (l1 l1' : List (M × Int)),
      rootLoop env dtzT fuel pos dtz l1 = some (l1', true) →
      rootLoop env dtzT fuel pos dtz (l1 ++ l2) =
        match rootLoop env dtzT fuel pos dtz l2 with
        | none => none
        | some (l2', ok) => some (l1' ++ l2', ok) := by
  intro l1
  induction l1 with
  | nil =>
    intro l1' h
    simp only [rootLoop, Option.some.injEq, Prod.mk.injEq] at h
    obtain ⟨h1, _⟩ := h
    subst h1
    simp only [List.nil_append]
    cases rootLoop env dtzT fuel pos dtz l2 with
    | none => rfl
    | some p =>
      rcases p with ⟨l2', ok⟩
      simp
  | cons e rest ih =>
    intro l1' h
    rcases e with ⟨m, ov⟩
    simp only [rootLoop, List.cons_append] at h ⊢
    split at h <;> rename_i hc
    · rw [if_pos hc]
      cases hr : rootLoop env dtzT fuel pos dtz rest with
      | none => rw [hr] at h; cases h
      | some p =>
        rcases p with ⟨l, ok⟩
        rw [hr] at h
        simp only [Option.some.injEq, Prod.mk.injEq] at h
        obtain ⟨h1, h2⟩ := h
        subst h1
        subst h2
        simp only [List.append_eq]
        rw [ih l hr]
        cases rootLoop env dtzT fuel pos dtz l2 with
        | none => rfl
        | some p2 =>
          rcases p2 with ⟨l2', ok2⟩
          simp
    · rw [if_neg hc]
      cases hv : rootMoveV env dtzT fuel (env.doMove pos m) with
      | none => rw [hv] at h; cases h
      | some p =>
        rcases p with ⟨v, s⟩
        rw [hv] at h
        simp only [] at h ⊢
        split at h <;> rename_i hs0
        · simp only [Option.some.injEq, Prod.mk.injEq] at h
          cases h.2
        · rw [if_neg hs0]
          cases hr : rootLoop env dtzT fuel pos dtz rest with
          | none => rw [hr] at h; cases h
          | some p2 =>
            rcases p2 with ⟨l, ok⟩
            rw [hr] at h
            simp only [Option.some.injEq, Prod.mk.injEq] at h
            obtain ⟨h1, h2⟩ := h
            subst h1
            subst h2
            simp only [List.append_eq]
            rw [ih l hr]
            cases rootLoop env dtzT fuel pos dtz l2 with
            | none => rfl
            | some p3 =>
              rcases p3 with ⟨l2', ok2⟩
              simp

/-- The per-move loop of TB_root_probe exits with the failure flag as soon
as a probed move's probe comes back with success 0 (tbprobe.c lines
632-638): the entry at the head and everything after it are left
untouched. -/
theorem rootLoop_fail_cons (env : TBEnv P M) (dtzT : P → Int → DtzTableRes)
    (fuel : Nat) (pos : P) (dtz : Int) (e : M × Int)
    (l2 : List (M × Int)) (v : Int)
    (hfix : ¬(env.checkers (env.doMove pos e.1) ∧ dtz > 0 ∧
      (env.legalList (env.doMove pos e.1)).isEmpty))
    (hpr : rootMoveV env dtzT fuel (env.doMove pos e.1) = some (v, 0)) :
    rootLoop env dtzT fuel pos dtz (e :: l2) = some (e :: l2, false) := by
  rcases e with ⟨m, ov⟩
  simp only [] at hfix hpr
  simp [rootLoop, if_neg hfix, hpr]

/-- C7: every exit of TB_root_probe returns 0 or 1; a 0 return leaves the
move fields and the length of the root move list unchanged (values probed
before the failing probe may have been written, but no move is dropped or
reordered); a failed root DTZ probe forces the 0 return with the list
fully untouched (tbprobe.c lines 610-613); and a failed per-move probe —
the loop reaches a move that is not the mate fixup and its probe returns
success 0 — forces the 0 return with every move and `*num_moves`
unchanged (tbprobe.c lines 632-638). -/
theorem claim_C7 (env : TBEnv P M) (dtzT : P → Int → DtzTableRes)
    (fuel : Nat) (pos : P) (rm : List (M × Int)) (res : RootRes M)
    (h : TB_root_probe env dtzT fuel pos rm = some res) :
    (res.ret = 0 ∨ res.ret = 1) ∧
    (res.ret = 0 → res.rm.map Prod.fst = rm.map Prod.fst ∧
      res.num = rm.length) ∧
    (∀ d, TB_probe_dtz env dtzT fuel pos = some (d, 0) →
      res.ret = 0 ∧ res.rm = rm ∧ res.num = rm.length) ∧
    (∀ (d0 s0 v : Int) (rm1 rm2 l1 : List (M × Int)) (e : M × Int),
      TB_probe_dtz env dtzT fuel pos = some (d0, s0) →
      rm = rm1 ++ e :: rm2 →
      rootLoop env dtzT fuel pos d0 rm1 = some (l1, true) →
      ¬(env.checkers (env.doMove pos e.1) ∧ d0 > 0 ∧
        (env.legalList (env.doMove pos e.1)).isEmpty) →
      rootMoveV env dtzT fuel (env.doMove pos e.1) = some (v, 0) →
      res.ret = 0 ∧ res.rm.map Prod.fst = rm.map Prod.fst ∧
        res.num = rm.length) := by
  simp only [TB_root_probe] at h
  cases hp : TB_probe_dtz env dtzT fuel pos with
  | none => rw [hp] at h; cases h
  | some q =>
    rcases q with ⟨dtz, succ⟩
    rw [hp] at h
    simp only [] at h
    by_cases hsz : succ = 0
    · rw [if_pos hsz] at h
      cases h
      exact ⟨Or.inl rfl, fun _ => ⟨rfl, rfl⟩, fun d hd => ⟨rfl, rfl, rfl⟩,
        fun d0 s0 v rm1 rm2 l1 e _ _ _ _ _ => ⟨rfl, rfl, rfl⟩⟩
    · rw [if_neg hsz] at h
      have hcontra : ∀ d : Int,
          (some (dtz, succ) : Option (Int × Int)) = some (d, 0) → False := by
        intro d hd
        injection hd with h1
        injection h1 with _ hb
        exact hsz hb
      cases hl : rootLoop env dtzT fuel pos dtz rm with
      | none => rw [hl] at h; cases h
      | some p =>
        rcases p with ⟨rmv, ok⟩
        rw [hl] at h
        have hmv := rootLoop_moves env dtzT fuel pos dtz rm rmv ok hl
        cases ok with
        | false =>
          simp only [Bool.not_false, if_pos] at h
          cases h
          exact ⟨Or.inl rfl, fun _ => ⟨hmv.1, rfl⟩,
            fun d hd => (hcontra d hd).elim,
            fun d0 s0 v rm1 rm2 l1 e _ _ _ _ _ => ⟨rfl, hmv.1, rfl⟩⟩
        | true =>
          simp only [Bool.not_true, Bool.false_eq_true, if_false] at h
          have hret : res.ret = 1 := by
            split at h <;> [skip; split at h] <;> first
              | (cases h; rfl)
              | (split at h <;> (cases h; rfl))
          have hnofail : ∀ (d0 s0 v : Int) (rm1 rm2 l1 : List (M × Int))
              (e : M × Int),
              (some (dtz, succ) : Option (Int × Int)) = some (d0, s0) →
              rm = rm1 ++ e :: rm2 →
              rootLoop env dtzT fuel pos d0 rm1 = some (l1, true) →
              ¬(env.checkers (env.doMove pos e.1) ∧ d0 > 0 ∧
                (env.legalList (env.doMove pos e.1)).isEmpty) →
              rootMoveV env dtzT fuel (env.doMove pos e.1) = some (v, 0) →
              False := by
            intro d0 s0 v rm1 rm2 l1 e hd hsplit hpre hfix hpr
            injection hd with hd1
            injection hd1 with hda hdb
            subst hda
            have hfail := rootLoop_fail_cons env dtzT fuel pos dtz e rm2 v
              hfix hpr
            have happ := rootLoop_append env dtzT fuel pos dtz (e :: rm2)
              rm1 l1 hpre
            rw [hsplit, happ, hfail] at hl
            simp only [Option.some.injEq, Prod.mk.injEq] at hl
            cases hl.2
          refine ⟨Or.inr hret, fun h0 => ?_, fun d hd => (hcontra d hd).elim,
            fun d0 s0 v rm1 rm2 l1 e hd hsplit hpre hfix hpr =>
              (hnofail d0 s0 v rm1 rm2 l1 e hd hsplit hpre hfix hpr).elim⟩
          rw [hret] at h0
          cases h0

/-- C6: when the root DTZ value is 0 (a tablebase draw) and all per-move
probes succeed, TB_root_probe keeps exactly the moves whose probed value is
0, in their original order, and sets `*num_moves` to their count
(tbprobe.c lines 703-709). -/
theorem claim_C6 (env : TBEnv P M) (dtzT : P → Int → DtzTableRes)
    (fuel : Nat) (pos : P) (rm : List (M × Int)) (vf : M → Int) (succ : Int)
    (hroot : TB_probe_dtz env dtzT fuel pos = some (0, succ)) (hs : succ ≠ 0)
    (hloop : rootLoop env dtzT fuel pos 0 rm =
      some (rm.map (fun e => (e.1, vf e.1)), true)) :
    ∃ res, TB_root_probe env dtzT fuel pos rm = some res ∧
      res.ret = 1 ∧
      res.num = (rm.filter (fun e => vf e.1 = 0)).length ∧
      (res.rm.take res.num).map Prod.fst =
        (rm.filter (fun e => vf e.1 = 0)).map Prod.fst := by
  have hfil := filter_map_fst rm vf (fun v => v = 0)
  simp only [TB_root_probe, hroot, hs, if_neg, hloop, Bool.not_true,
    Bool.false_eq_true, if_false, lt_irrefl, ite_false, if_neg hs]
  refine ⟨_, rfl, rfl, ?_, ?_⟩
  · simp only [hfil, List.length_map]
  · have hlen : (((rm.map (fun e => (e.1, vf e.1))).filter
        (fun e => decide (e.2 = 0))).map Prod.fst).length ≤
        (rm.map (fun e => (e.1, vf e.1))).length := by
      rw [List.length_map]
      exact List.length_filter_le _ _
    rw [overlay_take_map _ _ hlen]
    simp only [hfil, List.map_map]
    rfl

/-- The bound used by the winning branch of TB_root_probe (tbprobe.c lines
676-681): the DTZ-optimal value `best`, relaxed to `99 - cnt50` when no
repetition has occurred since the last capture or pawn move and the
50-move budget permits. -/
def maxDtzAllowed (best cnt50 : Int) (repeated : Bool) : Int :=
  if !repeated ∧ best + cnt50 ≤ 99 then 99 - cnt50 else best

/-- Characterization of the least-positive-value fold of the winning root
filter: the result is the start value or an attained positive list value,
it never exceeds the start value, and it is a lower bound of the positive
list values. -/
theorem foldl_minpos_spec (l : List (M × Int)) : ∀ b : Int,
    (l.foldl (fun b e => if e.2 > 0 ∧ e.2 < b then e.2 else b) b = b ∨
      ∃ e ∈ l, l.foldl (fun b e => if e.2 > 0 ∧ e.2 < b then e.2 else b) b
        = e.2 ∧ e.2 > 0) ∧
    l.foldl (fun b e => if e.2 > 0 ∧ e.2 < b then e.2 else b) b ≤ b ∧
    (∀ e ∈ l, e.2 > 0 →
      l.foldl (fun b e => if e.2 > 0 ∧ e.2 < b then e.2 else b) b ≤ e.2) := by
  induction l with
  | nil =>
    intro b
    exact ⟨Or.inl rfl, le_refl b, by simp⟩
  | cons a rest ih =>
    intro b
    simp only [List.foldl_cons]
    by_cases hc : a.2 > 0 ∧ a.2 < b
    · rw [if_pos hc]
      obtain ⟨ih1, ih2, ih3⟩ := ih a.2
      refine ⟨?_, le_trans ih2 (le_of_lt hc.2), ?_⟩
      · rcases ih1 with h | ⟨e, he, h1, h2⟩
        · exact Or.inr ⟨a, List.mem_cons_self a rest, h, hc.1⟩
        · exact Or.inr ⟨e, List.mem_cons_of_mem a he, h1, h2⟩
      · intro e he hpos
        rcases List.mem_cons.mp he with rfl | hmem
        · exact ih2
        · exact ih3 e hmem hpos
    · rw [if_neg hc]
      obtain ⟨ih1, ih2, ih3⟩ := ih b
      refine ⟨?_, ih2, ?_⟩
      · rcases ih1 with h | ⟨e, he, h1, h2⟩
        · exact Or.inl h
        · exact Or.inr ⟨e, List.mem_cons_of_mem a he, h1, h2⟩
      · intro e he hpos
        rcases List.mem_cons.mp he with rfl | hmem
        · have hnb : ¬ e.2 < b := fun hlt => hc ⟨hpos, hlt⟩
          exact le_trans ih2 (not_lt.mp hnb)
        · exact ih3 e hmem hpos

/-- Characterization of the greatest-value fold of TB_root_probe_wdl: the
result is the start value or an attained list value, it is at least the
start value, and it is an upper bound of the list values. -/
theorem foldl_max_spec (l : List (M × Int)) : ∀ b : Int,
    (l.foldl (fun b e => if e.2 > b then e.2 else b) b = b ∨
      ∃ e ∈ l, l.foldl (fun b e => if e.2 > b then e.2 else b) b = e.2) ∧
    b ≤ l.foldl (fun b e => if e.2 > b then e.2 else b) b ∧
    (∀ e ∈ l, e.2 ≤ l.foldl (fun b e => if e.2 > b then e.2 else b) b) := by
  induction l with
  | nil =>
    intro b
    exact ⟨Or.inl rfl, le_refl b, by simp⟩
  | cons a rest ih =>
    intro b
    simp only [List.foldl_cons]
    by_cases hc : a.2 > b
    · rw [if_pos hc]
      obtain ⟨ih1, ih2, ih3⟩ := ih a.2
      refine ⟨?_, le_trans (le_of_lt hc) ih2, ?_⟩
      · rcases ih1 with h | ⟨e, he, h1⟩
        · exact Or.inr ⟨a, List.mem_cons_self a rest, h⟩
        · exact Or.inr ⟨e, List.mem_cons_of_mem a he, h1⟩
      · intro e he
        rcases List.mem_cons.mp he with rfl | hmem
        · exact ih2
        · exact ih3 e hmem
    · rw [if_neg hc]
      obtain ⟨ih1, ih2, ih3⟩ := ih b
      refine ⟨?_, ih2, ?_⟩
      · rcases ih1 with h | ⟨e, he, h1⟩
        · exact Or.inl h
        · exact Or.inr ⟨e, List.mem_cons_of_mem a he, h1⟩
      · intro e he
        rcases List.mem_cons.mp he with rfl | hmem
        · exact le_trans (not_lt.mp hc) ih2
        · exact ih3 e hmem

/-- C5: in a winning root (dtz > 0) with all per-move probes successful and
at least one positive probed value, TB_root_probe keeps exactly the moves
whose value `v` satisfies `v > 0` and `v ≤ max_dtz_allowed`, where
`max_dtz_allowed` is `99 - cnt50` when has_repeated is false and
`best + cnt50 ≤ 99`, and is `best` otherwise, `best` being the smallest
positive probed value (tbprobe.c lines 664-688). -/
theorem claim_C5 (env : TBEnv P M) (dtzT : P → Int → DtzTableRes)
    (fuel : Nat) (pos : P) (rm : List (M × Int)) (vf : M → Int)
    (dtz succ : Int)
    (hroot : TB_probe_dtz env dtzT fuel pos = some (dtz, succ))
    (hs : succ ≠ 0) (hdtz : dtz > 0)
    (hloop : rootLoop env dtzT fuel pos dtz rm =
      some (rm.map (fun e => (e.1, vf e.1)), true))
    (hex : ∃ e ∈ rm, vf e.1 > 0)
    (hbound : ∀ e ∈ rm, vf e.1 < 0xffff) :
    ∃ res best,
      TB_root_probe env dtzT fuel pos rm = some res ∧ res.ret = 1 ∧
      best > 0 ∧ (∃ e ∈ rm, vf e.1 = best) ∧
      (∀ e ∈ rm, vf e.1 > 0 → best ≤ vf e.1) ∧
      res.num = (rm.filter (fun e => vf e.1 > 0 ∧ vf e.1 ≤
        maxDtzAllowed best (env.rule50 pos) (has_repeated (env.hist pos)))).length ∧
      (res.rm.take res.num).map Prod.fst =
        (rm.filter (fun e => vf e.1 > 0 ∧ vf e.1 ≤
          maxDtzAllowed best (env.rule50 pos) (has_repeated (env.hist pos)))).map
          Prod.fst := by
  obtain ⟨sp1, sp2, sp3⟩ :=
    foldl_minpos_spec (rm.map (fun e => (e.1, vf e.1))) 0xffff
  have hbw : bestWin (rm.map (fun e => (e.1, vf e.1))) =
      (rm.map (fun e => (e.1, vf e.1))).foldl
        (fun b e => if e.2 > 0 ∧ e.2 < b then e.2 else b) 0xffff := rfl
  obtain ⟨a, ha, hapos⟩ := hex
  have hamem : (a.1, vf a.1) ∈ rm.map (fun e => (e.1, vf e.1)) :=
    List.mem_map.mpr ⟨a, ha, rfl⟩
  have hle : bestWin (rm.map (fun e => (e.1, vf e.1))) ≤ vf a.1 := by
    rw [hbw]; exact sp3 (a.1, vf a.1) hamem hapos
  have hlt : bestWin (rm.map (fun e => (e.1, vf e.1))) < 0xffff :=
    lt_of_le_of_lt hle (hbound a ha)
  have hatt : ∃ e ∈ rm.map (fun e => (e.1, vf e.1)),
      bestWin (rm.map (fun e => (e.1, vf e.1))) = e.2 ∧ e.2 > 0 := by
    rcases sp1 with h | h
    · rw [hbw, h] at hlt
      exact absurd hlt (lt_irrefl _)
    · rw [hbw]; exact h
  obtain ⟨e0, he0, heq0, hpos0⟩ := hatt
  obtain ⟨a0, ha0, hga0⟩ := List.mem_map.mp he0
  have hmin : ∀ e ∈ rm, vf e.1 > 0 →
      bestWin (rm.map (fun e => (e.1, vf e.1))) ≤ vf e.1 := by
    intro e he hp
    rw [hbw]
    exact sp3 (e.1, vf e.1) (List.mem_map.mpr ⟨e, he, rfl⟩) hp
  have hfil := filter_map_fst rm vf (fun v => decide (v > 0 ∧ v ≤
    maxDtzAllowed (bestWin (rm.map (fun e => (e.1, vf e.1))))
      (env.rule50 pos) (has_repeated (env.hist pos))))
  have hmain : ∃ sc : Option Int, TB_root_probe env dtzT fuel pos rm = some
      ⟨1,
       overlayMoves (((rm.map (fun e => (e.1, vf e.1))).filter
         (fun e => decide (e.2 > 0 ∧ e.2 ≤
           maxDtzAllowed (bestWin (rm.map (fun e => (e.1, vf e.1))))
             (env.rule50 pos) (has_repeated (env.hist pos))))).map Prod.fst)
         (rm.map (fun e => (e.1, vf e.1))),
       (((rm.map (fun e => (e.1, vf e.1))).filter
         (fun e => decide (e.2 > 0 ∧ e.2 ≤
           maxDtzAllowed (bestWin (rm.map (fun e => (e.1, vf e.1))))
             (env.rule50 pos) (has_repeated (env.hist pos))))).map Prod.fst).length,
       sc⟩ := by
    simp only [TB_root_probe, hroot, if_neg hs, hloop, Bool.not_true,
      Bool.false_eq_true, if_false, if_pos hdtz, maxDtzAllowed]
    exact ⟨_, rfl⟩
  obtain ⟨sc, heq⟩ := hmain
  refine ⟨_, bestWin (rm.map (fun e => (e.1, vf e.1))), heq, rfl, ?_, ?_, hmin,
    ?_, ?_⟩
  · rw [heq0]; exact hpos0
  · refine ⟨a0, ha0, ?_⟩
    rw [heq0, ← hga0]
  · simp only [hfil, List.length_map]
  · have hlen : (((rm.map (fun e => (e.1, vf e.1))).filter
        (fun e => decide (e.2 > 0 ∧ e.2 ≤
          maxDtzAllowed (bestWin (rm.map (fun e => (e.1, vf e.1))))
            (env.rule50 pos) (has_repeated (env.hist pos))))).map Prod.fst).length
        ≤ (rm.map (fun e => (e.1, vf e.1))).length := by
      rw [List.length_map]
      exact List.length_filter_le _ _
    rw [overlay_take_map _ _ hlen]
    simp only [hfil, List.map_map]
    rfl

/-- The per-move loop of TB_root_probe_wdl, when every child probe succeeds
with negated value `vf`, annotates each move with its value. -/
theorem wdlRootLoop_eq (env : TBEnv P M) (fuel : Nat) (pos : P)
    (vf : M → Int) :
    ∀ rm : List (M × Int),
      (∀ e ∈ rm, ∃ s, s ≠ 0 ∧
        TB_probe_wdl env fuel (env.doMove pos e.1) = some (-(vf e.1), s)) →
      wdlRootLoop env fuel pos rm =
        some (rm.map (fun e => (e.1, vf e.1)), true) := by
  intro rm
  induction rm with
  | nil => intro _; rfl
  | cons e rest ih =>
    intro h
    obtain ⟨s, hsne, hp⟩ := h e (List.mem_cons_self e rest)
    rcases e with ⟨m, ov⟩
    have hrest := ih (fun e' he' => h e' (List.mem_cons_of_mem _ he'))
    simp only [wdlRootLoop, hp, if_neg hsne, hrest]
    simp

/-- C10: after a successful TB_root_probe_wdl, the first `*num_moves`
entries of the root move list are exactly the moves (in their original
order) whose negated child WDL value attains the maximum over all root
moves, `*num_moves` is their count, and it is positive whenever the input
list was non-empty (tbprobe.c lines 719-749). -/
theorem claim_C10 (env : TBEnv P M) (fuel : Nat) (pos : P)
    (rm : List (M × Int)) (vf : M → Int) (w0 s0 : Int)
    (hroot : TB_probe_wdl env fuel pos = some (w0, s0)) (hs : s0 ≠ 0)
    (hv : ∀ e ∈ rm, ∃ s, s ≠ 0 ∧
      TB_probe_wdl env fuel (env.doMove pos e.1) = some (-(vf e.1), s))
    (hb : ∀ e ∈ rm, -2 ≤ vf e.1) :
    ∃ res best,
      TB_root_probe_wdl env fuel pos rm = some res ∧ res.ret = 1 ∧
      (∀ e ∈ rm, vf e.1 ≤ best) ∧
      res.num = (rm.filter (fun e => vf e.1 = best)).length ∧
      (res.rm.take res.num).map Prod.fst =
        (rm.filter (fun e => vf e.1 = best)).map Prod.fst ∧
      (rm ≠ [] → (∃ e ∈ rm, vf e.1 = best) ∧ 0 < res.num) := by
  have hloop := wdlRootLoop_eq env fuel pos vf rm hv
  obtain ⟨sp1, sp2, sp3⟩ :=
    foldl_max_spec (rm.map (fun e => (e.1, vf e.1))) (-2)
  have hub : ∀ e ∈ rm, vf e.1 ≤
      (rm.map (fun e => (e.1, vf e.1))).foldl
        (fun b e => if e.2 > b then e.2 else b) (-2) := by
    intro e he
    exact sp3 (e.1, vf e.1) (List.mem_map.mpr ⟨e, he, rfl⟩)
  have hatt : rm ≠ [] → ∃ e ∈ rm, vf e.1 =
      (rm.map (fun e => (e.1, vf e.1))).foldl
        (fun b e => if e.2 > b then e.2 else b) (-2) := by
    intro hne
    rcases sp1 with h | h
    · cases rm with
      | nil => exact absurd rfl hne
      | cons a rest =>
        refine ⟨a, List.mem_cons_self a rest, ?_⟩
        have h1 := hub a (List.mem_cons_self a rest)
        have h2 := hb a (List.mem_cons_self a rest)
        rw [h] at h1 ⊢
        omega
    · obtain ⟨e0, he0, heq0⟩ := h
      obtain ⟨a0, ha0, hga0⟩ := List.mem_map.mp he0
      refine ⟨a0, ha0, ?_⟩
      rw [heq0, ← hga0]
  have hfil := filter_map_fst rm vf (fun v => decide (v =
    (rm.map (fun e => (e.1, vf e.1))).foldl
      (fun b e => if e.2 > b then e.2 else b) (-2)))
  have hmain : TB_root_probe_wdl env fuel pos rm = some
      ⟨1,
       overlayMoves (((rm.map (fun e => (e.1, vf e.1))).filter
         (fun e => decide (e.2 =
           (rm.map (fun e => (e.1, vf e.1))).foldl
             (fun b e => if e.2 > b then e.2 else b) (-2)))).map Prod.fst)
         (rm.map (fun e => (e.1, vf e.1))),
       (((rm.map (fun e => (e.1, vf e.1))).filter
         (fun e => decide (e.2 =
           (rm.map (fun e => (e.1, vf e.1))).foldl
             (fun b e => if e.2 > b then e.2 else b) (-2)))).map Prod.fst).length,
       some (wdl_to_Value.getD (w0 + 2).toNat 0)⟩ := by
    simp only [TB_root_probe_wdl, hroot, if_neg hs, hloop, Bool.not_true,
      Bool.false_eq_true, if_false]
  refine ⟨_, (rm.map (fun e => (e.1, vf e.1))).foldl
      (fun b e => if e.2 > b then e.2 else b) (-2), hmain, rfl, hub, ?_, ?_, ?_⟩
  · simp only [hfil, List.length_map]
  · have hlen : ((((rm.map (fun e => (e.1, vf e.1))).filter
        (fun e => decide (e.2 =
          (rm.map (fun e => (e.1, vf e.1))).foldl
            (fun b e => if e.2 > b then e.2 else b) (-2)))).map Prod.fst).length)
        ≤ (rm.map (fun e => (e.1, vf e.1))).length := by
      rw [List.length_map]
      exact List.length_filter_le _ _
    rw [overlay_take_map _ _ hlen]
    simp only [hfil, List.map_map]
    rfl
  · intro hne
    refine ⟨hatt hne, ?_⟩
    obtain ⟨a0, ha0, heq0⟩ := hatt hne
    have hmem : a0 ∈ rm.filter (fun e => decide (vf e.1 =
        (rm.map (fun e => (e.1, vf e.1))).foldl
          (fun b e => if e.2 > b then e.2 else b) (-2))) :=
      List.mem_filter.mpr ⟨ha0, by simpa using heq0⟩
    have hpos : 0 < (rm.filter (fun e => decide (vf e.1 =
        (rm.map (fun e => (e.1, vf e.1))).foldl
          (fun b e => if e.2 > b then e.2 else b) (-2)))).length :=
      List.length_pos.mpr (List.ne_nil_of_mem hmem)
    simpa [hfil, List.length_map] using hpos

/-- A four-position root test environment: position 0 is the root (table
value 2, DTZ table value 4), moves 0, 1, 2 lead to positions 1, 2, 3 of
table values -2, -1, 0, so the probed root-move values are 1, 101, 0. -/
def cenvR : TBEnv (Fin 4) (Fin 3) where
  checkers := fun _ => false
  capturesList := fun _ => []
  evasionsList := fun _ => []
  quietsList := fun _ => []
  nonEvasionsList := fun _ => []
  legalList := fun _ => []
  isCapture := fun _ _ => false
  isLegal := fun _ _ => true
  isEp := fun _ => false
  isPawnMove := fun _ _ => false
  doMove := fun _ m => if m = 0 then 1 else if m = 1 then 2 else 3
  wdlTable := fun p =>
    if p = 0 then some 2 else if p = 1 then some (-2)
    else if p = 2 then some (-1) else some 0
  rule50 := fun _ => 0
  hist := fun _ => []

/-- Like `cenvR` but the root is a tablebase draw (table value 0) and the
children have table values 0, -2, 2, so the probed root-move values are
0, 1, -1. -/
def cenvS : TBEnv (Fin 4) (Fin 3) where
  checkers := fun _ => false
  capturesList := fun _ => []
  evasionsList := fun _ => []
  quietsList := fun _ => []
  nonEvasionsList := fun _ => []
  legalList := fun _ => []
  isCapture := fun _ _ => false
  isLegal := fun _ _ => true
  isEp := fun _ => false
  isPawnMove := fun _ _ => false
  doMove := fun _ m => if m = 0 then 1 else if m = 1 then 2 else 3
  wdlTable := fun p =>
    if p = 0 then some 0 else if p = 1 then some 0
    else if p = 2 then some (-2) else some 2
  rule50 := fun _ => 0
  hist := fun _ => []

/-- Like `cenvS` but with every WDL table absent, so every probe fails. -/
def cenvF : TBEnv (Fin 4) (Fin 3) where
  checkers := fun _ => false
  capturesList := fun _ => []
  evasionsList := fun _ => []
  quietsList := fun _ => []
  nonEvasionsList := fun _ => []
  legalList := fun _ => []
  isCapture := fun _ _ => false
  isLegal := fun _ _ => true
  isEp := fun _ => false
  isPawnMove := fun _ _ => false
  doMove := fun _ m => if m = 0 then 1 else if m = 1 then 2 else 3
  wdlTable := fun _ => none
  rule50 := fun _ => 0
  hist := fun _ => []

/-- A constant DTZ table answering 4 for every position. -/
def dtzR : Fin 4 → Int → DtzTableRes := fun _ _ => .val 4

/-- The root move list of the root test environments. -/
def rmR : List (Fin 3 × Int) := [(0, 0), (1, 0), (2, 0)]

/-- The probed values of the root moves of `cenvR`. -/
def vfR : Fin 3 → Int := fun m => if m = 0 then 1 else if m = 1 then 101 else 0

/-- The probed values of the root moves of `cenvS` under DTZ probing. -/
def vfS : Fin 3 → Int := fun m => if m = 0 then 0 else if m = 1 then 1 else -1

/-- The negated child WDL values of the root moves of `cenvS`. -/
def vfW : Fin 3 → Int := fun m => if m = 0 then 0 else if m = 1 then 2 else -2

/-- C5 witness: on `cenvR` the root dtz is 5, the probed move values are
1, 101, 0, the best is 1, `max_dtz_allowed` relaxes to 99, and exactly the
move of value 1 is kept. -/
theorem claim_C5_witness :
    ∃ res best,
      TB_root_probe cenvR dtzR 3 0 rmR = some res ∧ res.ret = 1 ∧
      best > 0 ∧ (∃ e ∈ rmR, vfR e.1 = best) ∧
      (∀ e ∈ rmR, vfR e.1 > 0 → best ≤ vfR e.1) ∧
      res.num = (rmR.filter (fun e => vfR e.1 > 0 ∧ vfR e.1 ≤
        maxDtzAllowed best (cenvR.rule50 0) (has_repeated (cenvR.hist 0)))).length ∧
      (res.rm.take res.num).map Prod.fst =
        (rmR.filter (fun e => vfR e.1 > 0 ∧ vfR e.1 ≤
          maxDtzAllowed best (cenvR.rule50 0) (has_repeated (cenvR.hist 0)))).map
          Prod.fst :=
  claim_C5 cenvR dtzR 3 0 rmR vfR 5 1 (by decide) (by decide) (by decide)
    (by decide) (by decide) (by decide)

/-- C6 witness: on `cenvS` the root dtz is 0, the probed move values are
0, 1, -1, and exactly the move of value 0 is kept. -/
theorem claim_C6_witness :
    ∃ res, TB_root_probe cenvS dtzR 3 0 rmR = some res ∧
      res.ret = 1 ∧
      res.num = (rmR.filter (fun e => vfS e.1 = 0)).length ∧
      (res.rm.take res.num).map Prod.fst =
        (rmR.filter (fun e => vfS e.1 = 0)).map Prod.fst :=
  claim_C6 cenvS dtzR 3 0 rmR vfS 1 (by decide) (by decide) (by decide)

/-- Like `cenvR` but the WDL table of child position 1 is absent: the root
DTZ probe succeeds (dtz 5), while the probe of the first root move fails,
so TB_root_probe exits through the per-move failure site (tbprobe.c lines
632-638). -/
def cenvG : TBEnv (Fin 4) (Fin 3) where
  checkers := fun _ => false
  capturesList := fun _ => []
  evasionsList := fun _ => []
  quietsList := fun _ => []
  nonEvasionsList := fun _ => []
  legalList := fun _ => []
  isCapture := fun _ _ => false
  isLegal := fun _ _ => true
  isEp := fun _ => false
  isPawnMove := fun _ _ => false
  doMove := fun _ m => if m = 0 then 1 else if m = 1 then 2 else 3
  wdlTable := fun p => if p = 0 then some 2 else none
  rule50 := fun _ => 0
  hist := fun _ => []

/-- C7 witness: on `cenvG` the root DTZ probe succeeds but the probe of the
first root move fails, so TB_root_probe returns 0 through the per-move
failure exit and the move list and its length are untouched; all four
conjuncts of the claim theorem hold at this result. -/
theorem claim_C7_witness :
    (((⟨0, rmR, 3, none⟩ : RootRes (Fin 3)).ret = 0 ∨
      ((⟨0, rmR, 3, none⟩ : RootRes (Fin 3)).ret = 1)) ∧
    (((⟨0, rmR, 3, none⟩ : RootRes (Fin 3)).ret = 0 →
      (⟨0, rmR, 3, none⟩ : RootRes (Fin 3)).rm.map Prod.fst = rmR.map Prod.fst ∧
      (⟨0, rmR, 3, none⟩ : RootRes (Fin 3)).num = rmR.length)) ∧
    (∀ d, TB_probe_dtz cenvG dtzR 3 0 = some (d, 0) →
      (⟨0, rmR, 3, none⟩ : RootRes (Fin 3)).ret = 0 ∧
      (⟨0, rmR, 3, none⟩ : RootRes (Fin 3)).rm = rmR ∧
      (⟨0, rmR, 3, none⟩ : RootRes (Fin 3)).num = rmR.length) ∧
    (∀ (d0 s0 v : Int) (rm1 rm2 l1 : List (Fin 3 × Int)) (e : Fin 3 × Int),
      TB_probe_dtz cenvG dtzR 3 0 = some (d0, s0) →
      rmR = rm1 ++ e :: rm2 →
      rootLoop cenvG dtzR 3 0 d0 rm1 = some (l1, true) →
      ¬(cenvG.checkers (cenvG.doMove 0 e.1) ∧ d0 > 0 ∧
        (cenvG.legalList (cenvG.doMove 0 e.1)).isEmpty) →
      rootMoveV cenvG dtzR 3 (cenvG.doMove 0 e.1) = some (v, 0) →
      (⟨0, rmR, 3, none⟩ : RootRes (Fin 3)).ret = 0 ∧
      (⟨0, rmR, 3, none⟩ : RootRes (Fin 3)).rm.map Prod.fst =
        rmR.map Prod.fst ∧
      (⟨0, rmR, 3, none⟩ : RootRes (Fin 3)).num = rmR.length)) :=
  claim_C7 cenvG dtzR 3 0 rmR ⟨0, rmR, 3, none⟩ (by decide)

/-- C10 witness: on `cenvS` the negated child WDL values are 0, 2, -2; the
maximum is 2 and exactly the move attaining it is kept, with a positive
`*num_moves`. -/
theorem claim_C10_witness :
    ∃ res best,
      TB_root_probe_wdl cenvS 3 0 rmR = some res ∧ res.ret = 1 ∧
      (∀ e ∈ rmR, vfW e.1 ≤ best) ∧
      res.num = (rmR.filter (fun e => vfW e.1 = best)).length ∧
      (res.rm.take res.num).map Prod.fst =
        (rmR.filter (fun e => vfW e.1 = best)).map Prod.fst ∧
      (rmR ≠ [] → (∃ e ∈ rmR, vfW e.1 = best) ∧ 0 < res.num) :=
  claim_C10 cenvS 3 0 rmR vfW 0 1 (by decide) (by decide)
    (by intro e he; fin_cases he <;> exact ⟨1, by decide, by decide⟩)
    (by decide)

/-- The second component of wdlResolve (the success value of the tail of
TB_probe_wdl) is 1 or 2. -/
theorem wdlResolve_success (env : TBEnv P M) (pos : P) (ms : List M)
    (v bc be : Int) :
    (wdlResolve env pos ms v bc be).2 = 1 ∨
    (wdlResolve env pos ms v bc be).2 = 2 := by
  unfold wdlResolve
  split
  · split
    · exact Or.inr rfl
    · exact Or.inl rfl
  · split
    · exact Or.inr rfl
    · exact Or.inl rfl

/-- The success value of the post-table tail of TB_probe_wdl is 1 or 2. -/
theorem wdlAfterTable_success (env : TBEnv P M) (pos : P) (ms : List M)
    (v bc be : Int) :
    (wdlAfterTable env pos ms v bc be).2 = 1 ∨
    (wdlAfterTable env pos ms v bc be).2 = 2 := by
  unfold wdlAfterTable
  split
  · split
    · exact Or.inr rfl
    · exact wdlResolve_success env pos ms v be be
  · exact wdlResolve_success env pos ms v bc be

/-- TB_probe_wdl always exits with success 0, 1 or 2. -/
theorem TB_probe_wdl_success (env : TBEnv P M) (fuel : Nat) (pos : P)
    (w s : Int) (h : TB_probe_wdl env fuel pos = some (w, s)) :
    s = 0 ∨ s = 1 ∨ s = 2 := by
  cases fuel with
  | zero => cases h
  | succ f =>
    simp only [TB_probe_wdl] at h
    cases hcl : wdlCapLoop env (probe_ab env f) pos (capMoves env pos)
        (-3) (-3) with
    | none => rw [hcl] at h; cases h
    | some st =>
      rw [hcl] at h
      cases st with
      | fail =>
        injection h with h1
        injection h1 with _ hb
        exact Or.inl hb.symm
      | cut2 =>
        injection h with h1
        injection h1 with _ hb
        exact Or.inr (Or.inr hb.symm)
      | vals bc be =>
        cases ht : env.wdlTable pos with
        | none =>
          rw [ht] at h
          injection h with h1
          injection h1 with _ hb
          exact Or.inl hb.symm
        | some v =>
          rw [ht] at h
          injection h with h1
          have hb : (wdlAfterTable env pos (capMoves env pos) v bc be).2 = s := by
            rw [h1]
          rcases wdlAfterTable_success env pos (capMoves env pos) v bc be with
            h2 | h2
          · exact Or.inr (Or.inl (hb ▸ h2))
          · exact Or.inr (Or.inr (hb ▸ h2))

/-- The winning-pawn-move scan of TB_probe_dtz keeps the success value in
{1, 2} when it starts there and every child probe is a TB_probe_wdl. -/
theorem dtzPawnLoop_success (env : TBEnv P M)
    (wrec : P → Option (Int × Int)) (pos : P) (wdl : Int)
    (hw : ∀ p r, wrec p = some r → r.2 = 0 ∨ r.2 = 1 ∨ r.2 = 2) :
    ∀ (ms : List M) (s : Int), (s = 1 ∨ s = 2) →
      ∀ res, dtzPawnLoop env wrec pos wdl ms s = some res →
        (∀ s1, res = .found s1 → s1 = 1 ∨ s1 = 2) ∧
        (∀ s1, res = .done s1 → s1 = 1 ∨ s1 = 2) := by
  intro ms
  induction ms with
  | nil =>
    intro s hs res h
    simp only [dtzPawnLoop] at h
    injection h with h1
    subst h1
    exact ⟨fun s1 h2 => (nomatch h2), fun s1 h2 => (by cases h2; exact hs)⟩
  | cons m rest ih =>
    intro s hs res h
    simp only [dtzPawnLoop] at h
    split at h
    · exact ih s hs res h
    · cases hr : wrec (env.doMove pos m) with
      | none => rw [hr] at h; cases h
      | some r =>
        rcases r with ⟨w1, s1⟩
        rw [hr] at h
        simp only [] at h
        split at h
        · injection h with h1
          subst h1
          exact ⟨fun s2 h2 => (nomatch h2), fun s2 h2 => (nomatch h2)⟩
        · rename_i hs1
          have hs1r : s1 = 1 ∨ s1 = 2 := by
            rcases hw (env.doMove pos m) (w1, s1) hr with h2 | h2 | h2
            · exact absurd h2 hs1
            · exact Or.inl h2
            · exact Or.inr h2
          split at h
          · injection h with h1
            subst h1
            exact ⟨fun s2 h2 => (by cases h2; exact hs1r),
              fun s2 h2 => (nomatch h2)⟩
          · exact ih s1 hs1r res h

/-- The wrong-side recursion loop of TB_probe_dtz exits with a success in
{0, 1, 2}, unless it probed no move at all, in which case the success is
the entry value and every move of the list was skipped. -/
theorem dtzRecLoop_success (env : TBEnv P M)
    (drec : P → Option (Int × Int)) (pos : P) (wdlPos : Bool)
    (hd : ∀ p r, drec p = some r → r.2 = 0 ∨ r.2 = 1 ∨ r.2 = 2) :
    ∀ (ms : List M) (best s b2 s2 : Int),
      dtzRecLoop env drec pos wdlPos ms best s = some (.res b2 s2) →
      (s2 = 0 ∨ s2 = 1 ∨ s2 = 2) ∨
      (s2 = s ∧ ∀ m ∈ ms, (env.isCapture pos m || env.isPawnMove pos m ||
        !(env.isLegal pos m)) = true) := by
  intro ms
  induction ms with
  | nil =>
    intro best s b2 s2 h
    simp only [dtzRecLoop] at h
    injection h with h1
    injection h1 with _ hb
    exact Or.inr ⟨hb.symm, by simp⟩
  | cons m rest ih =>
    intro best s b2 s2 h
    simp only [dtzRecLoop] at h
    split at h
    · rename_i hskip
      rcases ih best s b2 s2 h with h1 | ⟨h1, h2⟩
      · exact Or.inl h1
      · refine Or.inr ⟨h1, ?_⟩
        intro m2 hm2
        rcases List.mem_cons.mp hm2 with rfl | hmem
        · exact hskip
        · exact h2 m2 hmem
    · cases hr : drec (env.doMove pos m) with
      | none => rw [hr] at h; cases h
      | some r =>
        rcases r with ⟨d1, s1⟩
        rw [hr] at h
        simp only [] at h
        split at h
        · cases h
        · rename_i hs1
          have hs1r : s1 = 1 ∨ s1 = 2 := by
            rcases hd (env.doMove pos m) (d1, s1) hr with h2 | h2 | h2
            · exact absurd h2 hs1
            · exact Or.inl h2
            · exact Or.inr h2
          have hfin : ∀ b0, dtzRecLoop env drec pos wdlPos rest b0 s1 =
              some (.res b2 s2) → s2 = 0 ∨ s2 = 1 ∨ s2 = 2 := by
            intro b0 h0
            rcases ih b0 s1 b2 s2 h0 with h1 | ⟨h1, _⟩
            · exact h1
            · rcases hs1r with h2 | h2
              · exact Or.inr (Or.inl (h1.trans h2))
              · exact Or.inr (Or.inr (h1.trans h2))
          split at h
          · split at h
            · exact Or.inl (hfin _ h)
            · exact Or.inl (hfin _ h)
          · split at h
            · exact Or.inl (hfin _ h)
            · exact Or.inl (hfin _ h)

/-- C8 (amended): the internal success value -1 produced by
probe_dtz_table's wrong-side answer is consumed by the recursion of
TB_probe_dtz — on exit success is in {0, 1, 2} — provided every position
whose DTZ-table answer is wrong-side has at least one probed move, i.e. a
legal non-capture non-pawn move in its generated list (otherwise the loop
body never runs and -1 escapes, see the counterexample). -/
theorem claim_C8 (env : TBEnv P M) (dtzT : P → Int → DtzTableRes)
    (henv : ∀ p w, dtzT p w = .wrongSide →
      ∃ m ∈ allMoves env p, (env.isCapture p m || env.isPawnMove p m ||
        !(env.isLegal p m)) = false) :
    ∀ fuel pos d s, TB_probe_dtz env dtzT fuel pos = some (d, s) →
      s = 0 ∨ s = 1 ∨ s = 2 := by
  intro fuel
  induction fuel with
  | zero => intro pos d s h; cases h
  | succ f ih =>
    intro pos d s h
    simp only [TB_probe_dtz] at h
    cases hw : TB_probe_wdl env f pos with
    | none => rw [hw] at h; cases h
    | some r =>
      rcases r with ⟨wdl, s0⟩
      rw [hw] at h
      simp only [] at h
      have hs0 := TB_probe_wdl_success env f pos wdl s0 hw
      by_cases h1 : s0 = 0
      · rw [if_pos h1] at h
        injection h with h2
        injection h2 with _ hb
        exact Or.inl hb.symm
      rw [if_neg h1] at h
      by_cases h2 : wdl = 0
      · rw [if_pos h2] at h
        injection h with h3
        injection h3 with _ hb
        subst hb
        exact hs0
      rw [if_neg h2] at h
      by_cases h3 : s0 = 2
      · rw [if_pos h3] at h
        injection h with h4
        injection h4 with _ hb
        exact Or.inr (Or.inr hb.symm)
      rw [if_neg h3] at h
      have hs01 : s0 = 1 := by
        rcases hs0 with h4 | h4 | h4
        · exact absurd h4 h1
        · exact h4
        · exact absurd h4 h3
      have hwchild : ∀ p r, TB_probe_wdl env f p = some r →
          r.2 = 0 ∨ r.2 = 1 ∨ r.2 = 2 :=
        fun p r hr => TB_probe_wdl_success env f p r.1 r.2 hr
      have hdchild : ∀ p r, TB_probe_dtz env dtzT f p = some r →
          r.2 = 0 ∨ r.2 = 1 ∨ r.2 = 2 :=
        fun p r hr => ih p r.1 r.2 hr
      cases hpl : (if wdl > 0 then
          dtzPawnLoop env (TB_probe_wdl env f) pos wdl (allMoves env pos) s0
          else some (.done s0)) with
      | none => rw [hpl] at h; cases h
      | some res =>
        rw [hpl] at h
        have hres : (∀ s1, res = .found s1 → s1 = 1 ∨ s1 = 2) ∧
            (∀ s1, res = .done s1 → s1 = 1 ∨ s1 = 2) := by
          by_cases hgt : wdl > 0
          · rw [if_pos hgt] at hpl
            exact dtzPawnLoop_success env (TB_probe_wdl env f) pos wdl hwchild
              (allMoves env pos) s0 (Or.inl hs01) res hpl
          · rw [if_neg hgt] at hpl
            injection hpl with h4
            subst h4
            exact ⟨fun s1 h5 => (nomatch h5),
              fun s1 h5 => (by cases h5; exact Or.inl hs01)⟩
        cases res with
        | fail =>
          injection h with h4
          injection h4 with _ hb
          exact Or.inl hb.symm
        | found s1 =>
          injection h with h4
          injection h4 with _ hb
          rcases hres.1 s1 rfl with h5 | h5
          · exact Or.inr (Or.inl (hb ▸ h5))
          · exact Or.inr (Or.inr (hb ▸ h5))
        | done s1 =>
          have hs1 : s1 = 1 ∨ s1 = 2 := hres.2 s1 rfl
          cases hdt : dtzT pos wdl with
          | fail =>
            rw [hdt] at h
            injection h with h4
            injection h4 with _ hb
            exact Or.inl hb.symm
          | val dv =>
            rw [hdt] at h
            injection h with h4
            injection h4 with _ hb
            rcases hs1 with h5 | h5
            · exact Or.inr (Or.inl (hb ▸ h5))
            · exact Or.inr (Or.inr (hb ▸ h5))
          | wrongSide =>
            rw [hdt] at h
            cases hrl : dtzRecLoop env (TB_probe_dtz env dtzT f) pos
                (decide (wdl > 0)) (allMoves env pos)
                (if wdl > 0 then INT32_MAX else wdlToDtz wdl) (-1) with
            | none => rw [hrl] at h; cases h
            | some res2 =>
              rw [hrl] at h
              cases res2 with
              | fail =>
                injection h with h4
                injection h4 with _ hb
                exact Or.inl hb.symm
              | res b2 s2 =>
                injection h with h4
                injection h4 with _ hb
                rcases dtzRecLoop_success env (TB_probe_dtz env dtzT f) pos
                    (decide (wdl > 0)) hdchild (allMoves env pos)
                    (if wdl > 0 then INT32_MAX else wdlToDtz wdl) (-1) b2 s2
                    hrl with h5 | ⟨h5, h6⟩
                · exact hb ▸ h5
                · exfalso
                  obtain ⟨m, hm, hcond⟩ := henv pos wdl hdt
                  rw [h6 m hm] at hcond
                  cases hcond

/-- A one-position environment whose DTZ table always answers wrong-side
and which has no moves at all: the recursion of TB_probe_dtz probes
nothing and the -1 escapes. -/
def cenvW : TBEnv (Fin 1) (Fin 1) where
  checkers := fun _ => false
  capturesList := fun _ => []
  evasionsList := fun _ => []
  quietsList := fun _ => []
  nonEvasionsList := fun _ => []
  legalList := fun _ => []
  isCapture := fun _ _ => false
  isLegal := fun _ _ => true
  isEp := fun _ => false
  isPawnMove := fun _ _ => false
  doMove := fun _ _ => 0
  wdlTable := fun _ => some 1
  rule50 := fun _ => 0
  hist := fun _ => []

/-- A DTZ table that always answers wrong-side. -/
def dtzW : Fin 1 → Int → DtzTableRes := fun _ _ => .wrongSide

/-- A two-position environment where position 0's DTZ table answer is
wrong-side and one legal non-capture non-pawn move leads to position 1,
whose DTZ table holds the value 2. -/
def cenvV : TBEnv (Fin 2) (Fin 1) where
  checkers := fun _ => false
  capturesList := fun _ => []
  evasionsList := fun _ => []
  quietsList := fun _ => []
  nonEvasionsList := fun p => if p = 0 then [0] else []
  legalList := fun _ => []
  isCapture := fun _ _ => false
  isLegal := fun _ _ => true
  isEp := fun _ => false
  isPawnMove := fun _ _ => false
  doMove := fun _ _ => 1
  wdlTable := fun p => if p = 0 then some 1 else some (-1)
  rule50 := fun _ => 0
  hist := fun _ => []

/-- The DTZ table of `cenvV`: wrong-side at position 0, value 2 at
position 1. -/
def dtzV : Fin 2 → Int → DtzTableRes :=
  fun p _ => if p = 0 then .wrongSide else .val 2

/-- C8 counterexample: on `cenvW` with DTZ table `dtzW`, TB_probe_dtz
exits with success -1 (and the winning-side initial best INT32_MAX as
value): the -1 is not consumed, because the wrong-side recursion had no
move to probe. -/
theorem claim_C8_counterexample :
    TB_probe_dtz cenvW dtzW 3 0 = some (INT32_MAX, -1) ∧
    ¬ ((-1 : Int) = 0 ∨ (-1 : Int) = 1 ∨ (-1 : Int) = 2) := by
  decide

/-- C8 witness: on `cenvV` with DTZ table `dtzV`, the wrong-side answer at
position 0 is consumed by recursing into position 1, and TB_probe_dtz
exits with value 104 and success 1 ∈ {0, 1, 2}. -/
theorem claim_C8_witness :
    TB_probe_dtz cenvV dtzV 4 0 = some (104, 1) ∧
    ((1 : Int) = 0 ∨ (1 : Int) = 1 ∨ (1 : Int) = 2) :=
  ⟨by decide,
   claim_C8 cenvV dtzV
     (by
       intro p w hp
       fin_cases p
       · exact ⟨0, by decide, by decide⟩
       · simp [dtzV] at hp)
     4 0 104 1 (by decide)⟩

/-- A color mirror of the probing environment: `σ` maps every position to
its color-mirrored position (piece colors swapped, board flipped
vertically, side to move swapped) and `τ` maps each move to its mirrored
move.  The fields state that every collaborator consumed by tbprobe.c
commutes with the mirror; in particular `wdlTable_eq` and `dtzTable_eq`
state that the table layer reads the same stored value for a position and
its mirror, which is what the `bside`/`mirror`/`cmirror` selection of
probe_wdl_table and probe_dtz_table (tbprobe.c lines 117-131 and 217-231)
achieves for the stored tables. -/
structure MirrorEquiv (env : TBEnv P M) (dtzT : P → Int → DtzTableRes)
    (σ : P → P) (τ : M → M) : Prop where
  checkers_eq : ∀ p, env.checkers (σ p) = env.checkers p
  captures_eq : ∀ p, env.capturesList (σ p) = (env.capturesList p).map τ
  evasions_eq : ∀ p, env.evasionsList (σ p) = (env.evasionsList p).map τ
  quiets_eq : ∀ p, env.quietsList (σ p) = (env.quietsList p).map τ
  nonEvasions_eq : ∀ p,
    env.nonEvasionsList (σ p) = (env.nonEvasionsList p).map τ
  isCapture_eq : ∀ p m, env.isCapture (σ p) (τ m) = env.isCapture p m
  isLegal_eq : ∀ p m, env.isLegal (σ p) (τ m) = env.isLegal p m
  isEp_eq : ∀ m, env.isEp (τ m) = env.isEp m
  isPawn_eq : ∀ p m, env.isPawnMove (σ p) (τ m) = env.isPawnMove p m
  doMove_eq : ∀ p m, env.doMove (σ p) (τ m) = σ (env.doMove p m)
  wdlTable_eq : ∀ p, env.wdlTable (σ p) = env.wdlTable p
  dtzTable_eq : ∀ p w, dtzT (σ p) w = dtzT p w

/-- The generated capture list of a mirrored position is the mirrored
generated capture list. -/
theorem capMoves_mirror (env : TBEnv P M) (dtzT : P → Int → DtzTableRes)
    (σ : P → P) (τ : M → M) (h : MirrorEquiv env dtzT σ τ) (p : P) :
    capMoves env (σ p) = (capMoves env p).map τ := by
  unfold capMoves
  rw [h.checkers_eq]
  cases hc : env.checkers p <;> simp [hc, h.captures_eq p, h.evasions_eq p]

/-- The generated full move list of a mirrored position is the mirrored
generated full move list. -/
theorem allMoves_mirror (env : TBEnv P M) (dtzT : P → Int → DtzTableRes)
    (σ : P → P) (τ : M → M) (h : MirrorEquiv env dtzT σ τ) (p : P) :
    allMoves env (σ p) = (allMoves env p).map τ := by
  unfold allMoves
  rw [h.checkers_eq]
  cases hc : env.checkers p <;> simp [hc, h.nonEvasions_eq p, h.evasions_eq p]

/-- The capture loop of probe_ab is mirror-invariant. -/
theorem abLoop_mirror (env : TBEnv P M) (dtzT : P → Int → DtzTableRes)
    (σ : P → P) (τ : M → M) (h : MirrorEquiv env dtzT σ τ)
    (recur : P → Int → Int → Option (Int × Bool))
    (hrec : ∀ q a b, recur (σ q) a b = recur q a b) (p : P) :
    ∀ (ms : List M) (a b : Int),
      abLoop env recur (σ p) (ms.map τ) a b = abLoop env recur p ms a b := by
  intro ms
  induction ms with
  | nil => intro a b; rfl
  | cons m rest ih =>
    intro a b
    simp only [List.map_cons, abLoop, h.isCapture_eq, h.isLegal_eq]
    split
    · exact ih a b
    · rw [h.doMove_eq, hrec]
      cases recur (env.doMove p m) (-b) (-a) with
      | none => rfl
      | some r =>
        rcases r with ⟨v0, ok⟩
        cases ok with
        | false => rfl
        | true =>
          simp only []
          split
          · split
            · rfl
            · exact ih (-v0) b
          · exact ih a b

/-- probe_ab is mirror-invariant. -/
theorem probe_ab_mirror (env : TBEnv P M) (dtzT : P → Int → DtzTableRes)
    (σ : P → P) (τ : M → M) (h : MirrorEquiv env dtzT σ τ) :
    ∀ (fuel : Nat) (p : P) (a b : Int),
      probe_ab env fuel (σ p) a b = probe_ab env fuel p a b := by
  intro fuel
  induction fuel with
  | zero => intro p a b; rfl
  | succ f ih =>
    intro p a b
    simp only [probe_ab]
    rw [capMoves_mirror env dtzT σ τ h p,
      abLoop_mirror env dtzT σ τ h (probe_ab env f) (fun q => ih q) p,
      h.wdlTable_eq p]

/-- The capture-resolution loop of TB_probe_wdl is mirror-invariant. -/
theorem wdlCapLoop_mirror (env : TBEnv P M) (dtzT : P → Int → DtzTableRes)
    (σ : P → P) (τ : M → M) (h : MirrorEquiv env dtzT σ τ)
    (recur : P → Int → Int → Option (Int × Bool))
    (hrec : ∀ q a b, recur (σ q) a b = recur q a b) (p : P) :
    ∀ (ms : List M) (bc be : Int),
      wdlCapLoop env recur (σ p) (ms.map τ) bc be =
        wdlCapLoop env recur p ms bc be := by
  intro ms
  induction ms with
  | nil => intro bc be; rfl
  | cons m rest ih =>
    intro bc be
    simp only [List.map_cons, wdlCapLoop, h.isCapture_eq, h.isLegal_eq,
      h.isEp_eq]
    split
    · exact ih bc be
    · rw [h.doMove_eq, hrec]
      cases recur (env.doMove p m) (-2) (-bc) with
      | none => rfl
      | some r =>
        rcases r with ⟨v0, ok⟩
        cases ok with
        | false => rfl
        | true =>
          simp only []
          split
          · split
            · rfl
            · split
              · exact ih (-v0) be
              · split
                · exact ih bc (-v0)
                · exact ih bc be
          · exact ih bc be

/-- The stalemate test of TB_probe_wdl is mirror-invariant. -/
theorem isStalemate_mirror (env : TBEnv P M) (dtzT : P → Int → DtzTableRes)
    (σ : P → P) (τ : M → M) (h : MirrorEquiv env dtzT σ τ) (p : P)
    (ms : List M) :
    isStalemate env (σ p) (ms.map τ) = isStalemate env p ms := by
  unfold isStalemate
  rw [h.checkers_eq, h.quiets_eq, List.all_map, List.all_map]
  have h1 : ((fun m => env.isEp m || !env.isLegal (σ p) m) ∘ τ) =
      fun m => env.isEp m || !env.isLegal p m := by
    funext m
    simp only [Function.comp]
    rw [h.isEp_eq, h.isLegal_eq]
  have h2 : ((fun m => !env.isLegal (σ p) m) ∘ τ) =
      fun m => !env.isLegal p m := by
    funext m
    simp only [Function.comp]
    rw [h.isLegal_eq]
  rw [h1, h2]

/-- The tail of TB_probe_wdl after the table read is mirror-invariant. -/
theorem wdlAfterTable_mirror (env : TBEnv P M)
    (dtzT : P → Int → DtzTableRes) (σ : P → P) (τ : M → M)
    (h : MirrorEquiv env dtzT σ τ) (p : P) :
    ∀ (ms : List M) (v bc be : Int),
      wdlAfterTable env (σ p) (ms.map τ) v bc be =
        wdlAfterTable env p ms v bc be := by
  intro ms v bc be
  unfold wdlAfterTable wdlResolve
  rw [isStalemate_mirror env dtzT σ τ h p ms]

/-- TB_probe_wdl is mirror-invariant: probing the color-mirrored position
yields the same value and the same success. -/
theorem TB_probe_wdl_mirror (env : TBEnv P M) (dtzT : P → Int → DtzTableRes)
    (σ : P → P) (τ : M → M) (h : MirrorEquiv env dtzT σ τ) :
    ∀ (fuel : Nat) (p : P),
      TB_probe_wdl env fuel (σ p) = TB_probe_wdl env fuel p := by
  intro fuel
  cases fuel with
  | zero => intro p; rfl
  | succ f =>
    intro p
    simp only [TB_probe_wdl]
    rw [capMoves_mirror env dtzT σ τ h p,
      wdlCapLoop_mirror env dtzT σ τ h (probe_ab env f)
        (fun q => probe_ab_mirror env dtzT σ τ h f q) p]
    cases wdlCapLoop env (probe_ab env f) p (capMoves env p) (-3) (-3) with
    | none => rfl
    | some st =>
      cases st with
      | fail => rfl
      | cut2 => rfl
      | vals bc be =>
        simp only []
        rw [h.wdlTable_eq p]
        cases env.wdlTable p with
        | none => rfl
        | some v =>
          simp only []
          rw [wdlAfterTable_mirror env dtzT σ τ h p]

/-- The winning-pawn-move scan of TB_probe_dtz is mirror-invariant. -/
theorem dtzPawnLoop_mirror (env : TBEnv P M) (dtzT : P → Int → DtzTableRes)
    (σ : P → P) (τ : M → M) (h : MirrorEquiv env dtzT σ τ)
    (wrec : P → Option (Int × Int)) (hw : ∀ q, wrec (σ q) = wrec q)
    (p : P) (wdl : Int) :
    ∀ (ms : List M) (s : Int),
      dtzPawnLoop env wrec (σ p) wdl (ms.map τ) s =
        dtzPawnLoop env wrec p wdl ms s := by
  intro ms
  induction ms with
  | nil => intro s; rfl
  | cons m rest ih =>
    intro s
    simp only [List.map_cons, dtzPawnLoop, h.isCapture_eq, h.isLegal_eq,
      h.isPawn_eq]
    split
    · exact ih s
    · rw [h.doMove_eq, hw]
      cases wrec (env.doMove p m) with
      | none => rfl
      | some r =>
        rcases r with ⟨w1, s1⟩
        simp only []
        split
        · rfl
        · split
          · rfl
          · exact ih s1

/-- The wrong-side recursion loop of TB_probe_dtz is mirror-invariant. -/
theorem dtzRecLoop_mirror (env : TBEnv P M) (dtzT : P → Int → DtzTableRes)
    (σ : P → P) (τ : M → M) (h : MirrorEquiv env dtzT σ τ)
    (drec : P → Option (Int × Int)) (hd : ∀ q, drec (σ q) = drec q)
    (p : P) (wdlPos : Bool) :
    ∀ (ms : List M) (best s : Int),
      dtzRecLoop env drec (σ p) wdlPos (ms.map τ) best s =
        dtzRecLoop env drec p wdlPos ms best s := by
  intro ms
  induction ms with
  | nil => intro best s; rfl
  | cons m rest ih =>
    intro best s
    simp only [List.map_cons, dtzRecLoop, h.isCapture_eq, h.isLegal_eq,
      h.isPawn_eq]
    split
    · exact ih best s
    · rw [h.doMove_eq, hd]
      cases drec (env.doMove p m) with
      | none => rfl
      | some r =>
        rcases r with ⟨d1, s1⟩
        simp only []
        split
        · rfl
        · split
          · split
            · exact ih (-d1 + 1) s1
            · exact ih best s1
          · split
            · exact ih (-d1 - 1) s1
            · exact ih best s1

/-- TB_probe_dtz is mirror-invariant: probing the color-mirrored position
yields the same DTZ value and the same success. -/
theorem TB_probe_dtz_mirror (env : TBEnv P M) (dtzT : P → Int → DtzTableRes)
    (σ : P → P) (τ : M → M) (h : MirrorEquiv env dtzT σ τ) :
    ∀ (fuel : Nat) (p : P),
      TB_probe_dtz env dtzT fuel (σ p) = TB_probe_dtz env dtzT fuel p := by
  intro fuel
  induction fuel with
  | zero => intro p; rfl
  | succ f ih =>
    intro p
    simp only [TB_probe_dtz]
    rw [TB_probe_wdl_mirror env dtzT σ τ h f p]
    cases TB_probe_wdl env f p with
    | none => rfl
    | some r =>
      rcases r with ⟨wdl, s⟩
      simp only []
      rw [allMoves_mirror env dtzT σ τ h p,
        dtzPawnLoop_mirror env dtzT σ τ h (TB_probe_wdl env f)
          (fun q => TB_probe_wdl_mirror env dtzT σ τ h f q) p wdl,
        dtzRecLoop_mirror env dtzT σ τ h (TB_probe_dtz env dtzT f)
          (fun q => ih q) p (decide (wdl > 0)),
        h.dtzTable_eq p]

/-- C1 (amended): probing the color mirror of a position (piece colors
swapped, board flipped, side to move swapped) yields the SAME WDL and DTZ
values, not the negated ones: TB_probe_wdl and TB_probe_dtz are invariant
under any mirror of the environment, and the `bside` selected by the table
readers (tbprobe.c lines 117-131) is the same for a position and its color
mirror, both for mirrored non-symmetric tables and for symmetric ones. -/
theorem claim_C1 (env : TBEnv P M) (dtzT : P → Int → DtzTableRes)
    (σ : P → P) (τ : M → M) (h : MirrorEquiv env dtzT σ τ) :
    (∀ (fuel : Nat) (p : P),
      TB_probe_wdl env fuel (σ p) = TB_probe_wdl env fuel p) ∧
    (∀ (fuel : Nat) (p : P),
      TB_probe_dtz env dtzT fuel (σ p) = TB_probe_dtz env dtzT fuel p) ∧
    (∀ keyMatches stmWhite,
      (tableSides false keyMatches stmWhite).1 =
        (tableSides false (!keyMatches) (!stmWhite)).1) ∧
    (∀ stmWhite, (tableSides true true stmWhite).1 = 0) :=
  ⟨TB_probe_wdl_mirror env dtzT σ τ h, TB_probe_dtz_mirror env dtzT σ τ h,
   by decide, by decide⟩

/-- A two-position environment representing a position and its color
mirror: positions 0 and 1 mirror each other (think of a won KQvK position
with the winner to move, and the same board with colors swapped, flipped,
and the other side to move), both with stored WDL value 2 and stored DTZ
payload 4. -/
def cenvM : TBEnv (Fin 2) (Fin 1) where
  checkers := fun _ => false
  capturesList := fun _ => []
  evasionsList := fun _ => []
  quietsList := fun _ => []
  nonEvasionsList := fun _ => []
  legalList := fun _ => []
  isCapture := fun _ _ => false
  isLegal := fun _ _ => true
  isEp := fun _ => false
  isPawnMove := fun _ _ => false
  doMove := fun p _ => p
  wdlTable := fun _ => some 2
  rule50 := fun _ => 0
  hist := fun _ => []

/-- The DTZ table of `cenvM`: payload 4 everywhere. -/
def dtzM : Fin 2 → Int → DtzTableRes := fun _ _ => .val 4

/-- The mirror map of `cenvM`: swap the two positions. -/
def sigmaM : Fin 2 → Fin 2 := fun p => if p = 0 then 1 else 0

/-- The environment `cenvM` with `sigmaM` is a mirror pair. -/
theorem cenvM_mirror : MirrorEquiv cenvM dtzM sigmaM id where
  checkers_eq := fun _ => rfl
  captures_eq := fun _ => rfl
  evasions_eq := fun _ => rfl
  quiets_eq := fun _ => rfl
  nonEvasions_eq := fun _ => rfl
  isCapture_eq := fun _ _ => rfl
  isLegal_eq := fun _ _ => rfl
  isEp_eq := fun _ => rfl
  isPawn_eq := fun _ _ => rfl
  doMove_eq := fun _ _ => rfl
  wdlTable_eq := fun _ => rfl
  dtzTable_eq := fun _ _ => rfl

/-- C1 counterexample: position 1 is the color mirror of position 0 in
`cenvM`; both probes succeed, both WDL probes return 2 and both DTZ probes
return 5 — equal values, not values of opposite sign as the claim
asserts. -/
theorem claim_C1_counterexample :
    MirrorEquiv cenvM dtzM sigmaM id ∧ sigmaM 0 = 1 ∧
    TB_probe_wdl cenvM 2 1 = some (2, 1) ∧
    TB_probe_wdl cenvM 2 0 = some (2, 1) ∧
    ¬ ((2 : Int) = -(2 : Int)) ∧
    TB_probe_dtz cenvM dtzM 3 1 = some (5, 1) ∧
    TB_probe_dtz cenvM dtzM 3 0 = some (5, 1) ∧
    ¬ ((5 : Int) = -(5 : Int)) :=
  ⟨cenvM_mirror, by decide, by decide, by decide, by decide, by decide,
   by decide, by decide⟩

/-- C1 witness: the amended claim applied to `cenvM`, whose positions 0
and 1 mirror each other: every probe of the mirror equals the probe of the
original, and the `bside` facts hold. -/
theorem claim_C1_witness :
    (∀ (fuel : Nat) (p : Fin 2),
      TB_probe_wdl cenvM fuel (sigmaM p) = TB_probe_wdl cenvM fuel p) ∧
    (∀ (fuel : Nat) (p : Fin 2),
      TB_probe_dtz cenvM dtzM fuel (sigmaM p) =
        TB_probe_dtz cenvM dtzM fuel p) ∧
    (∀ keyMatches stmWhite,
      (tableSides false keyMatches stmWhite).1 =
        (tableSides false (!keyMatches) (!stmWhite)).1) ∧
    (∀ stmWhite, (tableSides true true stmWhite).1 = 0) :=
  claim_C1 cenvM dtzM sigmaM id cenvM_mirror

end Cfish
